import Mathlib

/-!
Shallow embedding of the Minesweeper board engine
(`src/services/gameLogic.ts`, `src/services/geminiService.ts`,
`src/types.ts`) together with proofs about its operations.

Modelling conventions:
* JavaScript arrays of cells become `List (List Cell)`; out-of-bounds
  indexing (a crash in JS via `undefined` dereference) is modelled by
  `Option`.
* JS numbers used as coordinates/counters are `Nat` (they are only ever
  produced by loops from 0 upward); where the source compares against a
  possibly non-positive bound (`createEmptyBoard` dimensions,
  `checkWin`'s `rows*cols - mines`) we use `Int`.
* JS floating point confidence/risk values are modelled as exact
  rationals (`Rat`); all claims about them are order/equality facts that
  are robust under this idealisation.
* `Math.random()`-driven mine placement takes an explicit list of
  candidate coordinates (the injectable random source); the unbounded
  `while` loop returns `none` when the list is exhausted before enough
  mines are placed (and on an out-of-range pick, which the real source
  `Math.floor(Math.random()*rows)` never produces).
* The two BFS `while` loops of `revealCell` are modelled with explicit
  fuel; `none` means the fuel ran out. We prove that the fuel
  `9*rows*cols + 2` always suffices, which is the termination argument.
-/

namespace Mines

/-- `CellState` from `src/types.ts`. -/
inductive CellState where
  | HIDDEN
  | REVEALED
  | FLAGGED
  | QUESTION
deriving DecidableEq, Repr

/-- `CellData` from `src/types.ts` (`highlight?: boolean` is the optional
UI field, modelled as `Option Bool`). -/
structure Cell where
  row : Nat
  col : Nat
  isMine : Bool
  state : CellState
  neighborMines : Nat
  highlight : Option Bool := none
deriving DecidableEq, Repr

/-- `Difficulty` from `src/types.ts`. -/
structure Difficulty where
  name : String
  rows : Nat
  cols : Nat
  mines : Nat
deriving DecidableEq, Repr

/-- `AiHint` from `src/types.ts`. -/
structure AiHint where
  row : Nat
  col : Nat
  reasoning : String
  confidence : Rat
deriving DecidableEq, Repr

abbrev Board := List (List Cell)

/-- `board[r][c]` — `none` models the JS crash on out-of-bounds access. -/
def getCell (b : Board) (r c : Nat) : Option Cell :=
  b[r]?.bind fun row => row[c]?

/-- Number of rows, `board.length`. -/
def nRows (b : Board) : Nat := b.length

/-- Number of columns as the source reads it: `board[0].length`. -/
def nCols (b : Board) : Nat := (b.head?.getD []).length

/-- In-place update `board[r][c] = f board[r][c]` (a no-op when out of
bounds, which never happens at the modelled call sites). -/
def setCellWith (f : Cell → Cell) (b : Board) (r c : Nat) : Board :=
  match b[r]? with
  | none => b
  | some rowList =>
    match rowList[c]? with
    | none => b
    | some cell => b.set r (rowList.set c (f cell))

/-- `board[r][c].state = s`. -/
def setState (b : Board) (r c : Nat) (s : CellState) : Board :=
  setCellWith (fun cell => { cell with state := s }) b r c

/-- The board is a `rows × cols` rectangle. -/
def isRect (b : Board) (rows cols : Nat) : Bool :=
  b.length == rows && b.all fun row => row.length == cols

/-- `DIRECTIONS` from `src/services/gameLogic.ts`; the inline
`dr, dc ∈ {-1,0,1} \ {(0,0)}` double loops of `geminiService.ts`
enumerate offsets in this same order. -/
def DIRECTIONS : List (Int × Int) :=
  [(-1,-1), (-1,0), (-1,1), (0,-1), (0,1), (1,-1), (1,0), (1,1)]

/-- `createEmptyBoard` from `src/services/gameLogic.ts`: the `for` loops
run `max rows 0` times (no dimension validation exists in the source). -/
def createEmptyBoard (rows cols : Int) : Board :=
  (List.range rows.toNat).map fun r =>
    (List.range cols.toNat).map fun c =>
      { row := r, col := c, isMine := false, state := .HIDDEN, neighborMines := 0 }

/-- Error taxonomy of spec §7 (board generation). -/
inductive GenError where
  | InvalidDimensions
deriving DecidableEq, Repr

/-- Modelled from the spec: spec §4.2/§7 say `createEmptyBoard` "Fails
with `InvalidDimensions` if `rows ≤ 0` or `cols ≤ 0`"; this failing
variant does not exist in the source, which validates nothing. -/
def createEmptyBoardSpec (rows cols : Int) : Except GenError Board :=
  if rows ≤ 0 ∨ cols ≤ 0 then .error .InvalidDimensions
  else .ok (createEmptyBoard rows cols)

/-- `Math.abs(r - firstClickRow) <= 1 && Math.abs(c - firstClickCol) <= 1`
from `placeMines`. -/
def isSafeZone (firstClickRow firstClickCol r c : Nat) : Bool :=
  ((r : Int) - (firstClickRow : Int)).natAbs ≤ 1 &&
    ((c : Int) - (firstClickCol : Int)).natAbs ≤ 1

/-- `board[r][c].isMine = true`. -/
def setMine (b : Board) (r c : Nat) : Board :=
  setCellWith (fun cell => { cell with isMine := true }) b r c

/-- The `while (minesPlaced < mines)` rejection-sampling loop of
`placeMines`, with the random draws `Math.floor(Math.random()*rows)`,
`Math.floor(Math.random()*cols)` supplied as the explicit list `picks`
(the injectable random source). `remaining = mines - minesPlaced`;
`none` models non-termination (picks exhausted) or the JS crash on an
out-of-range pick, which the real random source never produces. -/
def placeMinesLoop (firstClickRow firstClickCol : Nat) :
    Board → Nat → List (Nat × Nat) → Option Board
  | b, 0, _ => some b
  | _, _ + 1, [] => none
  | b, remaining + 1, (r, c) :: picks =>
    match getCell b r c with
    | none => none
    | some cell =>
      if !cell.isMine && !isSafeZone firstClickRow firstClickCol r c then
        placeMinesLoop firstClickRow firstClickCol (setMine b r c) remaining picks
      else
        placeMinesLoop firstClickRow firstClickCol b (remaining + 1) picks

/-- `List.map` with the element index, used to model the
`for r … for c …` write-back loops. -/
def mapIdxFrom (f : Nat → α → β) : Nat → List α → List β
  | _, [] => []
  | i, a :: as => f i a :: mapIdxFrom f (i + 1) as

def mapIdx2 (f : Nat → Nat → Cell → Cell) (b : Board) : Board :=
  mapIdxFrom (fun r rowList => mapIdxFrom (fun c cell => f r c cell) 0 rowList) 0 b

/-- The neighbour-mine count computed by the `DIRECTIONS.forEach` block
of `placeMines` (bounds are checked against `rows`/`cols` read once at
the top of `placeMines`). -/
def countMinedNeighbors (b : Board) (rows cols : Nat) (r c : Nat) : Nat :=
  (DIRECTIONS.filter fun d =>
    let nr := (r : Int) + d.1
    let nc := (c : Int) + d.2
    decide (0 ≤ nr) && decide (nr < (rows : Int)) &&
      decide (0 ≤ nc) && decide (nc < (cols : Int)) &&
      ((getCell b nr.toNat nc.toNat).map (·.isMine)).getD false).length

/-- The "Calculate numbers" double loop of `placeMines`. The source
mutates `neighborMines` in place while reading only `isMine`, so reading
all counts from the pre-pass board is equivalent; the loop bounds
`r < rows`, `c < cols` coincide with the element-wise map on the
rectangular boards this is called with. -/
def computeNumbers (b : Board) : Board :=
  let rows := nRows b
  let cols := nCols b
  mapIdx2 (fun r c cell =>
    if cell.isMine then cell
    else { cell with neighborMines := countMinedNeighbors b rows cols r c }) b

/-- `placeMines` from `src/services/gameLogic.ts` (the `newBoard` deep
copy is the identity in this pure model). -/
def placeMines (board : Board) (mines : Nat) (firstClickRow firstClickCol : Nat)
    (picks : List (Nat × Nat)) : Option Board :=
  (placeMinesLoop firstClickRow firstClickCol board mines picks).map computeNumbers

/-- The neighbour coordinates a just-revealed zero cell enqueues: in
bounds (`rows`/`cols` as the source reads them from the board) and
currently `HIDDEN` or `QUESTION`. Shared verbatim by both `while` loops
of `revealCell`. -/
def enqueueNbrs (b : Board) (r c : Nat) : List (Nat × Nat) :=
  DIRECTIONS.filterMap fun d =>
    let nr := (r : Int) + d.1
    let nc := (c : Int) + d.2
    if 0 ≤ nr ∧ nr < (nRows b : Int) ∧ 0 ≤ nc ∧ nc < (nCols b : Int) then
      match getCell b nr.toNat nc.toNat with
      | some ncell =>
        if ncell.state = .HIDDEN ∨ ncell.state = .QUESTION then
          some (nr.toNat, nc.toNat)
        else none
      | none => none   -- unreachable on rectangular boards
    else none

/-- The first `while (queue.length > 0)` loop of `revealCell` (its result
board `newBoard` is discarded by the source, but the loop runs). `fuel`
bounds the iteration count; `none` = fuel exhausted or an out-of-bounds
dequeue (JS crash), neither of which happens from the real entry point. -/
def bfs1 : Nat → Board → List (Nat × Nat) → Option Board
  | 0, _, _ => none
  | _ + 1, b, [] => some b
  | fuel + 1, b, (r, c) :: q =>
    match getCell b r c with
    | none => none
    | some cell =>
      if cell.state = .REVEALED ∨ cell.state = .FLAGGED then
        bfs1 fuel b q
      else
        let b' := setState b r c .REVEALED
        if cell.neighborMines = 0 then
          bfs1 fuel b' (q ++ enqueueNbrs b' r c)
        else
          bfs1 fuel b' q

/-- The second ("Refined Flood Fill") `while (q.length > 0)` loop of
`revealCell`, whose result `finalBoard` is what the function returns.
`vis` is the JS `visited` string set, modelled as a list of coordinate
pairs (the `r,c` string key is injective on pairs). -/
def bfs2 : Nat → Board → List (Nat × Nat) → List (Nat × Nat) → Option Board
  | 0, _, _, _ => none
  | _ + 1, b, [], _ => some b
  | fuel + 1, b, (r, c) :: q, vis =>
    if (r, c) ∈ vis then
      bfs2 fuel b q vis
    else
      let vis' := (r, c) :: vis
      match getCell b r c with
      | none => none
      | some target =>
        if target.state = .FLAGGED then
          bfs2 fuel b q vis'
        else
          let b' := setState b r c .REVEALED
          if target.neighborMines = 0 ∧ target.isMine = false then
            bfs2 fuel b' (q ++ enqueueNbrs b' r c) vis'
          else
            bfs2 fuel b' q vis'

/-- Fuel that provably suffices for either BFS loop (see the termination
theorems below). -/
def revealFuel (b : Board) : Nat := 9 * (nRows b * nCols b) + 2

/-- `revealCell` from `src/services/gameLogic.ts`. The source runs the
first BFS on a copy `newBoard`, discards it, then reruns the refined BFS
on a fresh copy `finalBoard` of the input; both runs are modelled (the
first contributes nothing but its termination). -/
def revealCell (b : Board) (row col : Nat) : Option (Board × Bool) :=
  match getCell b row col with
  | none => none
  | some cell =>
    if cell.state ≠ .HIDDEN ∧ cell.state ≠ .QUESTION then
      some (b, false)
    else if cell.isMine then
      some (setState b row col .REVEALED, true)
    else
      match bfs1 (revealFuel b) b [(row, col)] with
      | none => none
      | some _ =>
        (bfs2 (revealFuel b) b [(row, col)] []).map fun finalBoard => (finalBoard, false)

/-- Instrumented copy of `bfs1` that also returns the total number of
coordinates ever pushed onto the worklist (`enq` starts at the initial
queue length); used only for the resource-bound claim. -/
def bfs1Count : Nat → Board → List (Nat × Nat) → Nat → Option (Board × Nat)
  | 0, _, _, _ => none
  | _ + 1, b, [], enq => some (b, enq)
  | fuel + 1, b, (r, c) :: q, enq =>
    match getCell b r c with
    | none => none
    | some cell =>
      if cell.state = .REVEALED ∨ cell.state = .FLAGGED then
        bfs1Count fuel b q enq
      else
        let b' := setState b r c .REVEALED
        if cell.neighborMines = 0 then
          bfs1Count fuel b' (q ++ enqueueNbrs b' r c) (enq + (enqueueNbrs b' r c).length)
        else
          bfs1Count fuel b' q enq

/-- Instrumented copy of `bfs2` counting worklist pushes, as `bfs1Count`. -/
def bfs2Count : Nat → Board → List (Nat × Nat) → List (Nat × Nat) → Nat →
    Option (Board × Nat)
  | 0, _, _, _, _ => none
  | _ + 1, b, [], _, enq => some (b, enq)
  | fuel + 1, b, (r, c) :: q, vis, enq =>
    if (r, c) ∈ vis then
      bfs2Count fuel b q vis enq
    else
      let vis' := (r, c) :: vis
      match getCell b r c with
      | none => none
      | some target =>
        if target.state = .FLAGGED then
          bfs2Count fuel b q vis' enq
        else
          let b' := setState b r c .REVEALED
          if target.neighborMines = 0 ∧ target.isMine = false then
            bfs2Count fuel b' (q ++ enqueueNbrs b' r c) vis'
              (enq + (enqueueNbrs b' r c).length)
          else
            bfs2Count fuel b' q vis' enq

/-- Worklist pushes performed by the whole `revealCell` call, per loop
(`none` when the flood-fill does not run at all, or on fuel exhaustion). -/
def revealEnqueues (b : Board) (row col : Nat) : Option (Nat × Nat) :=
  match getCell b row col with
  | none => none
  | some cell =>
    if cell.state ≠ .HIDDEN ∧ cell.state ≠ .QUESTION then none
    else if cell.isMine then none
    else
      match bfs1Count (revealFuel b) b [(row, col)] 1,
            bfs2Count (revealFuel b) b [(row, col)] [] 1 with
      | some (_, e1), some (_, e2) => some (e1, e2)
      | _, _ => none

/-- `checkWin` from `src/services/gameLogic.ts`. The revealed-cell count
is taken over the `r < rows`, `c < cols` index ranges exactly as the
source's double loop does; the comparison is exact integer arithmetic. -/
def checkWin (b : Board) (difficulty : Difficulty) : Bool :=
  let rows := nRows b
  let cols := nCols b
  let revealedCount : Nat :=
    ((List.range rows).map fun r =>
      (List.range cols).countP fun c =>
        ((getCell b r c).map fun cell => cell.state == .REVEALED).getD false).sum
  (revealedCount : Int) == (rows : Int) * (cols : Int) - (difficulty.mines : Int)

/-- Cells counted per row with a predicate (used to state board-level
counting facts independently of `checkWin`'s index loops). -/
def cellCount (p : Cell → Bool) (b : Board) : Nat :=
  (b.map fun rowList => rowList.countP p).sum

def countMines (b : Board) : Nat := cellCount (·.isMine) b

def countHidden (b : Board) : Nat := cellCount (fun cell => cell.state == .HIDDEN) b

def countRevealed (b : Board) : Nat := cellCount (fun cell => cell.state == .REVEALED) b

/-- Row-major traversal order of the nested `for r … for c …` scans. -/
def rowMajor (rows cols : Nat) : List (Nat × Nat) :=
  (List.range rows).flatMap fun r => (List.range cols).map fun c => (r, c)

/-- The in-bounds 8-neighbour cells of `(r, c)`, in the `dr`/`dc` double
loop order of `findSafeMove` (which coincides with `DIRECTIONS`). -/
def nbrCells (b : Board) (rows cols : Nat) (r c : Nat) : List Cell :=
  DIRECTIONS.filterMap fun d =>
    let nr := (r : Int) + d.1
    let nc := (c : Int) + d.2
    if 0 ≤ nr ∧ nr < (rows : Int) ∧ 0 ≤ nc ∧ nc < (cols : Int) then
      getCell b nr.toNat nc.toNat
    else none

/-- `flaggedCount` / `hiddenCount` of `findSafeMove`'s first scan. -/
def countNbrState (b : Board) (rows cols : Nat) (r c : Nat) (s : CellState) : Nat :=
  (nbrCells b rows cols r c).countP fun cell => cell.state == s

/-- The first (in `dr`/`dc` order) in-bounds `HIDDEN` neighbour —
the cell the Tier-1 early `return` picks. -/
def firstHiddenNbr (b : Board) (rows cols : Nat) (r c : Nat) : Option (Nat × Nat) :=
  DIRECTIONS.findSome? fun d =>
    let nr := (r : Int) + d.1
    let nc := (c : Int) + d.2
    if 0 ≤ nr ∧ nr < (rows : Int) ∧ 0 ≤ nc ∧ nc < (cols : Int) then
      match getCell b nr.toNat nc.toNat with
      | some ncell => if ncell.state = .HIDDEN then some (nr.toNat, nc.toNat) else none
      | none => none
    else none

/-- The Tier-1 reasoning template string of `findSafeMove`. -/
def tier1Reason (nr nc neighborMines r c : Nat) : String :=
  "Cell (" ++ toString nr ++ ", " ++ toString nc ++ ") is safe because all " ++
    toString neighborMines ++ " mines around cell (" ++ toString r ++ ", " ++
    toString c ++ ") are already flagged."

/-- The Tier-2 reasoning template string of `findSafeMove`. -/
def tier2Reason (r c : Nat) : String :=
  "Cell (" ++ toString r ++ ", " ++ toString c ++
    ") appears to be the safest option based on neighboring numbers."

/-- One body iteration of `findSafeMove`'s "Strategy 1" scan: `some`
exactly when the source's early `return` fires at `(r, c)`. (The second
`if` of the source body only `continue`s, so it contributes nothing.) -/
def tier1At (b : Board) (rows cols : Nat) (r c : Nat) : Option AiHint :=
  match getCell b r c with
  | none => none
  | some cell =>
    if cell.state = .REVEALED ∧ 0 < cell.neighborMines then
      let flaggedCount := countNbrState b rows cols r c .FLAGGED
      let hiddenCount := countNbrState b rows cols r c .HIDDEN
      if flaggedCount = cell.neighborMines ∧ flaggedCount < hiddenCount then
        match firstHiddenNbr b rows cols r c with
        | some (nr, nc) =>
          some { row := nr, col := nc, confidence := 1,
                 reasoning := tier1Reason nr nc cell.neighborMines r c }
        | none => none
      else none
    else none

/-- "Strategy 1" of `findSafeMove`: row-major scan, first early return
wins. -/
def tier1 (b : Board) (rows cols : Nat) : Option AiHint :=
  (rowMajor rows cols).findSome? fun p => tier1At b rows cols p.1 p.2

/-- The `safestCell` record of `findSafeMove`'s "Strategy 2". -/
structure RiskCell where
  row : Nat
  col : Nat
  risk : Rat
deriving DecidableEq, Repr

/-- `avgRisk` of a hidden cell: `totalMinesAround / totalRevealedNeighbors
/ 8`, or the `0.1` default with no revealed neighbour. -/
def riskAt (b : Board) (rows cols : Nat) (r c : Nat) : Rat :=
  let revealedNbrs := (nbrCells b rows cols r c).filter fun cell => cell.state == .REVEALED
  let totalMinesAround : Nat := (revealedNbrs.map (·.neighborMines)).sum
  let totalRevealedNeighbors := revealedNbrs.length
  if 0 < totalRevealedNeighbors then
    (totalMinesAround : Rat) / (totalRevealedNeighbors : Rat) / 8
  else (1 : Rat) / 10

/-- One body iteration of `findSafeMove`'s "Strategy 2" scan
(`!safestCell || avgRisk < safestCell.risk` keeps the strictly lowest
risk, first found winning ties). -/
def tier2Step (b : Board) (rows cols : Nat) (best : Option RiskCell) (p : Nat × Nat) :
    Option RiskCell :=
  match getCell b p.1 p.2 with
  | some cell =>
    if cell.state = .HIDDEN then
      let avgRisk := riskAt b rows cols p.1 p.2
      match best with
      | none => some ⟨p.1, p.2, avgRisk⟩
      | some safestCell =>
        if avgRisk < safestCell.risk then some ⟨p.1, p.2, avgRisk⟩
        else some safestCell
    else best
  | none => best

/-- "Strategy 2" of `findSafeMove`: row-major scan for the safest hidden
cell. -/
def tier2 (b : Board) (rows cols : Nat) : Option RiskCell :=
  (rowMajor rows cols).foldl (tier2Step b rows cols) none

/-- `Math.max` on the rational model of JS numbers (`max` of the order,
spelled out so that it evaluates by kernel reduction). -/
def jsMax (a b : Rat) : Rat := if a ≤ b then b else a

/-- `findSafeMove` from `src/services/geminiService.ts` (the `suggestMove`
of the spec). -/
def findSafeMove (b : Board) : Option AiHint :=
  let rows := nRows b
  let cols := nCols b
  match tier1 b rows cols with
  | some hint => some hint
  | none =>
    match tier2 b rows cols with
    | some safestCell =>
      some { row := safestCell.row, col := safestCell.col,
             confidence := jsMax ((1 : Rat) / 10) (1 - safestCell.risk),
             reasoning := tier2Reason safestCell.row safestCell.col }
    | none => none

/-- The per-row lengths of a board (its shape). -/
def rowLengths (b : Board) : List Nat := b.map List.length

/-- Every cell field except `state`. -/
def stripCell (cell : Cell) : Nat × Nat × Bool × Nat × Option Bool :=
  (cell.row, cell.col, cell.isMine, cell.neighborMines, cell.highlight)

/-- Every cell field except `state`, per cell, over the whole board:
two boards related by `stripStates` agree on shape, `row`, `col`,
`isMine`, `neighborMines` and `highlight` everywhere. -/
def stripStates (b : Board) : List (List (Nat × Nat × Bool × Nat × Option Bool)) :=
  b.map fun rowList => rowList.map stripCell

/-- Cells an iteration of either BFS loop may still process into a
reveal: neither `REVEALED` nor `FLAGGED` (the first loop's skip test). -/
def activeCount (b : Board) : Nat :=
  cellCount (fun cell => !(cell.state == .REVEALED || cell.state == .FLAGGED)) b

/-- `(nr, nc)` is one of the 8-neighbours of `(r, c)`. -/
def isNbr (r c nr nc : Nat) : Bool :=
  DIRECTIONS.any fun d => (nr : Int) == (r : Int) + d.1 && (nc : Int) == (c : Int) + d.2

/-- Every cell either survives unchanged or — when it was not flagged —
has exactly its `state` overwritten with `REVEALED`. -/
def RevealsOnly (b out : Board) : Prop :=
  ∀ i j cell, getCell b i j = some cell →
    getCell out i j = some cell ∨
      (cell.state ≠ CellState.FLAGGED ∧
        getCell out i j = some { cell with state := .REVEALED })

/-- 1×1 board holding a single hidden cell, used to evaluate theorems on
a concrete input. -/
def oneHiddenBoard : Board :=
  [[{ row := 0, col := 0, isMine := false, state := .HIDDEN, neighborMines := 0 }]]

/-- 2×2 board whose cell `(0,0)` is revealed with `neighborMines = 1`,
its single mined neighbour `(0,1)` flagged, and two hidden cells. -/
def tier1Board : Board :=
  [[{ row := 0, col := 0, isMine := false, state := .REVEALED, neighborMines := 1 },
    { row := 0, col := 1, isMine := true,  state := .FLAGGED,  neighborMines := 0 }],
   [{ row := 1, col := 0, isMine := false, state := .HIDDEN,   neighborMines := 1 },
    { row := 1, col := 1, isMine := false, state := .HIDDEN,   neighborMines := 1 }]]

/-- 2×2 board: `(0,0)` revealed with `neighborMines = 2`, both its mined
neighbours `(0,1)`, `(1,0)` flagged, `(1,1)` the single hidden cell. -/
def cexBoardC1 : Board :=
  [[{ row := 0, col := 0, isMine := false, state := .REVEALED, neighborMines := 2 },
    { row := 0, col := 1, isMine := true,  state := .FLAGGED,  neighborMines := 1 }],
   [{ row := 1, col := 0, isMine := true,  state := .FLAGGED,  neighborMines := 1 },
    { row := 1, col := 1, isMine := false, state := .HIDDEN,   neighborMines := 2 }]]

theorem getCell_createEmptyBoard (rows cols : Int) (i j : Nat) :
    getCell (createEmptyBoard rows cols) i j =
      if i < rows.toNat ∧ j < cols.toNat then
        some { row := i, col := j, isMine := false, state := .HIDDEN, neighborMines := 0 }
      else none := by
  unfold getCell createEmptyBoard
  rcases Nat.lt_or_ge i rows.toNat with hi | hi
  · rw [List.getElem?_map, List.getElem?_range hi]
    rcases Nat.lt_or_ge j cols.toNat with hj | hj
    · rw [Option.map_some', Option.some_bind, List.getElem?_map,
        List.getElem?_range hj]
      simp [hi, hj]
    · rw [Option.map_some', Option.some_bind, List.getElem?_map,
        List.getElem?_eq_none (by simpa using hj)]
      simp [Nat.not_lt.2 hj]
  · rw [List.getElem?_map, List.getElem?_eq_none (by simpa using hi)]
    simp [Nat.not_lt.2 hi]

/-! ### Generic list helpers -/

theorem countP_set_aux (p : α → Bool) :
    ∀ (l : List α) (i : Nat) (x y : α), l[i]? = some x →
      (l.set i y).countP p + (if p x then 1 else 0) =
        l.countP p + (if p y then 1 else 0)
  | [], i, x, y, h => by simp at h
  | a :: as, 0, x, y, h => by
    simp only [List.getElem?_cons_zero, Option.some.injEq] at h
    subst h
    simp only [List.set_cons_zero, List.countP_cons]
    omega
  | a :: as, i + 1, x, y, h => by
    simp only [List.getElem?_cons_succ] at h
    have ih := countP_set_aux p as i x y h
    simp only [List.set_cons_succ, List.countP_cons]
    omega

theorem sum_set_aux :
    ∀ (l : List Nat) (i : Nat) (x y : Nat), l[i]? = some x →
      (l.set i y).sum + x = l.sum + y
  | [], i, x, y, h => by simp at h
  | a :: as, 0, x, y, h => by
    simp only [List.getElem?_cons_zero, Option.some.injEq] at h
    subst h
    simp only [List.set_cons_zero, List.sum_cons]
    omega
  | a :: as, i + 1, x, y, h => by
    simp only [List.getElem?_cons_succ] at h
    have ih := sum_set_aux as i x y h
    simp only [List.set_cons_succ, List.sum_cons]
    omega

theorem set_self_aux : ∀ (l : List α) (i : Nat) (a : α), l[i]? = some a → l.set i a = l
  | [], _, _, h => by simp at h
  | x :: xs, 0, a, h => by
    simp only [List.getElem?_cons_zero, Option.some.injEq] at h
    simp [h]
  | x :: xs, i + 1, a, h => by
    simp only [List.getElem?_cons_succ] at h
    simp [set_self_aux xs i a h]

theorem countP_range_get (l : List α) (p : α → Bool) :
    (List.range l.length).countP (fun i => ((l[i]?).map p).getD false) = l.countP p := by
  induction l with
  | nil => simp
  | cons a as ih =>
    rw [List.length_cons, List.range_succ_eq_map, List.countP_cons, List.countP_map]
    have : ((fun i => ((((a :: as)[i]?).map p).getD false)) ∘ Nat.succ) =
        fun i => (((as[i]?).map p).getD false) := by
      funext i
      simp [Function.comp]
    rw [this, ih]
    simp [List.countP_cons]

theorem sum_map_range_get (l : List α) (g : α → Nat) :
    ((List.range l.length).map fun i => ((l[i]?).map g).getD 0).sum = (l.map g).sum := by
  induction l with
  | nil => simp
  | cons a as ih =>
    rw [List.length_cons, List.range_succ_eq_map, List.map_cons, List.map_map]
    have : ((fun i => (((a :: as)[i]?).map g).getD 0) ∘ Nat.succ) =
        fun i => ((as[i]?).map g).getD 0 := by
      funext i
      simp [Function.comp]
    rw [this]
    simp [ih]

/-! ### Board shape and access lemmas -/

theorem getCell_eq_some {b : Board} {r c : Nat} {cell : Cell} :
    getCell b r c = some cell ↔
      ∃ rowList, b[r]? = some rowList ∧ rowList[c]? = some cell := by
  unfold getCell
  cases h : b[r]? with
  | none => simp
  | some rowList => simp

theorem isRect_iff {b : Board} {rows cols : Nat} :
    isRect b rows cols = true ↔
      b.length = rows ∧ ∀ rowList ∈ b, rowList.length = cols := by
  unfold isRect
  simp [List.all_eq_true]

theorem rect_length {b : Board} {rows cols : Nat} (h : isRect b rows cols = true) :
    b.length = rows := (isRect_iff.1 h).1

theorem rect_row {b : Board} {rows cols : Nat} (h : isRect b rows cols = true)
    {r : Nat} {rowList : List Cell} (hr : b[r]? = some rowList) :
    rowList.length = cols :=
  (isRect_iff.1 h).2 rowList (List.getElem?_mem hr)

theorem rect_nRows {b : Board} {rows cols : Nat} (h : isRect b rows cols = true) :
    nRows b = rows := rect_length h

theorem rect_nCols {b : Board} {rows cols : Nat} (h : isRect b rows cols = true)
    (h0 : 0 < rows) : nCols b = cols := by
  have hlen : b.length = rows := rect_length h
  have hne : b ≠ [] := by
    intro hb
    rw [hb] at hlen
    simp at hlen
    omega
  obtain ⟨rowList, rest, rfl⟩ := List.exists_cons_of_ne_nil hne
  have : (rowList :: rest)[0]? = some rowList := by simp
  have hr := rect_row h this
  simpa [nCols] using hr

theorem getCell_some_bounds {b : Board} {rows cols : Nat}
    (h : isRect b rows cols = true) {r c : Nat} {cell : Cell}
    (hc : getCell b r c = some cell) : r < rows ∧ c < cols := by
  obtain ⟨rowList, hrow, hcell⟩ := getCell_eq_some.1 hc
  obtain ⟨hr, -⟩ := List.getElem?_eq_some_iff.1 hrow
  obtain ⟨hc2, -⟩ := List.getElem?_eq_some_iff.1 hcell
  exact ⟨rect_length h ▸ hr, rect_row h hrow ▸ hc2⟩

theorem getCell_isSome_of_bounds {b : Board} {rows cols : Nat}
    (h : isRect b rows cols = true) {r c : Nat} (hr : r < rows) (hc : c < cols) :
    ∃ cell, getCell b r c = some cell := by
  have hr2 : r < b.length := by
    rw [rect_length h]
    exact hr
  obtain ⟨rowList, hrow⟩ : ∃ rowList, b[r]? = some rowList := by
    rw [List.getElem?_eq_getElem hr2]
    exact ⟨_, rfl⟩
  have hlen : rowList.length = cols := rect_row h hrow
  have hc2 : c < rowList.length := by
    rw [hlen]
    exact hc
  obtain ⟨cell, hcell⟩ : ∃ cell, rowList[c]? = some cell := by
    rw [List.getElem?_eq_getElem hc2]
    exact ⟨_, rfl⟩
  exact ⟨cell, getCell_eq_some.2 ⟨rowList, hrow, hcell⟩⟩

/-! ### `setCellWith` lemmas -/

theorem setCellWith_row (f : Cell → Cell) {b : Board} {r : Nat} (c : Nat)
    {rowList : List Cell} (hrow : b[r]? = some rowList) :
    setCellWith f b r c =
      match rowList[c]? with
      | none => b
      | some cell => b.set r (rowList.set c (f cell)) := by
  unfold setCellWith
  rw [hrow]

theorem setCellWith_none (f : Cell → Cell) {b : Board} {r c : Nat}
    (h : getCell b r c = none) : setCellWith f b r c = b := by
  unfold getCell at h
  cases hrow : b[r]? with
  | none =>
    unfold setCellWith
    rw [hrow]
  | some rowList =>
    rw [hrow, Option.some_bind] at h
    rw [setCellWith_row f c hrow, h]

theorem setCellWith_eq (f : Cell → Cell) {b : Board} {r c : Nat} {rowList : List Cell}
    {cell : Cell} (hrow : b[r]? = some rowList) (hcell : rowList[c]? = some cell) :
    setCellWith f b r c = b.set r (rowList.set c (f cell)) := by
  rw [setCellWith_row f c hrow, hcell]

theorem getCell_setCellWith (f : Cell → Cell) (b : Board) (r c i j : Nat) :
    getCell (setCellWith f b r c) i j =
      if r = i ∧ c = j then (getCell b i j).map f else getCell b i j := by
  cases hg : getCell b r c with
  | none =>
    rw [setCellWith_none f hg]
    by_cases hij : r = i ∧ c = j
    · obtain ⟨rfl, rfl⟩ := hij
      rw [if_pos ⟨rfl, rfl⟩, hg]
      rfl
    · rw [if_neg hij]
  | some cell =>
    obtain ⟨rowList, hrow, hcell⟩ := getCell_eq_some.1 hg
    rw [setCellWith_eq f hrow hcell]
    have hrlt : r < b.length := (List.getElem?_eq_some_iff.1 hrow).1
    have hclt : c < rowList.length := (List.getElem?_eq_some_iff.1 hcell).1
    by_cases hri : r = i
    · subst hri
      by_cases hcj : c = j
      · subst hcj
        rw [if_pos ⟨rfl, rfl⟩]
        unfold getCell
        rw [List.getElem?_set_self hrlt, hrow]
        simp [List.getElem?_set_self hclt, hcell]
      · rw [if_neg (by tauto)]
        unfold getCell
        rw [List.getElem?_set_self hrlt, hrow]
        simp [List.getElem?_set_ne (fun h => hcj h)]
    · rw [if_neg (by tauto)]
      unfold getCell
      rw [List.getElem?_set_ne hri]

theorem rowLengths_setCellWith (f : Cell → Cell) (b : Board) (r c : Nat) :
    rowLengths (setCellWith f b r c) = rowLengths b := by
  cases hg : getCell b r c with
  | none => rw [setCellWith_none f hg]
  | some cell =>
    obtain ⟨rowList, hrow, hcell⟩ := getCell_eq_some.1 hg
    rw [setCellWith_eq f hrow hcell]
    unfold rowLengths
    rw [List.map_set]
    simp only [List.length_set]
    apply set_self_aux
    rw [List.getElem?_map, hrow]
    rfl

theorem nCols_rowLengths (b : Board) : nCols b = (rowLengths b).head?.getD 0 := by
  cases b <;> rfl

theorem nRows_eq_of_rowLengths {a b : Board} (h : rowLengths a = rowLengths b) :
    nRows a = nRows b := by
  have := congrArg List.length h
  simpa [rowLengths, nRows] using this

theorem nCols_eq_of_rowLengths {a b : Board} (h : rowLengths a = rowLengths b) :
    nCols a = nCols b := by
  rw [nCols_rowLengths, nCols_rowLengths, h]

theorem isRect_eq_of_rowLengths {a b : Board} (h : rowLengths a = rowLengths b)
    (rows cols : Nat) : isRect a rows cols = isRect b rows cols := by
  unfold isRect
  have hlen : a.length = b.length := by
    have := congrArg List.length h
    simpa [rowLengths] using this
  have key : ∀ x : Board,
      (x.all fun row => row.length == cols) = (rowLengths x).all (· == cols) := by
    intro x
    induction x with
    | nil => rfl
    | cons rowList rest ih =>
      unfold rowLengths at ih ⊢
      simp only [List.all_cons, List.map_cons, ih]
  rw [hlen, key, key, h]

theorem cellCount_setCellWith (p : Cell → Bool) (f : Cell → Cell) (b : Board) (r c : Nat)
    {cell : Cell} (h : getCell b r c = some cell) :
    cellCount p (setCellWith f b r c) + (if p cell then 1 else 0) =
      cellCount p b + (if p (f cell) then 1 else 0) := by
  obtain ⟨rowList, hrow, hcell⟩ := getCell_eq_some.1 h
  rw [setCellWith_eq f hrow hcell]
  have h1 : cellCount p (b.set r (rowList.set c (f cell))) + rowList.countP p =
      cellCount p b + (rowList.set c (f cell)).countP p := by
    unfold cellCount
    rw [List.map_set]
    apply sum_set_aux
    rw [List.getElem?_map, hrow]
    rfl
  have h2 := countP_set_aux p rowList c cell (f cell) hcell
  split_ifs at h2 ⊢ <;> omega

theorem cellCount_pos (p : Cell → Bool) {b : Board} {r c : Nat} {cell : Cell}
    (h : getCell b r c = some cell) (hp : p cell = true) : 0 < cellCount p b := by
  obtain ⟨rowList, hrow, hcell⟩ := getCell_eq_some.1 h
  have hcp : 0 < rowList.countP p :=
    List.countP_pos_iff.2 ⟨cell, List.getElem?_mem hcell, hp⟩
  have hmem : rowList.countP p ∈ b.map (·.countP p) :=
    List.mem_map_of_mem _ (List.getElem?_mem hrow)
  have := List.single_le_sum (fun x _ => Nat.zero_le x) _ hmem
  unfold cellCount
  omega

theorem cellCount_le {b : Board} {rows cols : Nat} (h : isRect b rows cols = true)
    (p : Cell → Bool) : cellCount p b ≤ rows * cols := by
  unfold cellCount
  have h1 : (b.map fun rowList => rowList.countP p).sum ≤ (b.map List.length).sum := by
    apply List.sum_le_sum
    intro rowList _
    exact List.countP_le_length _
  have h2 : b.map List.length = List.replicate b.length cols := by
    rw [List.eq_replicate_iff]
    refine ⟨by simp, ?_⟩
    intro x hx
    rw [List.mem_map] at hx
    obtain ⟨rowList, hmem, rfl⟩ := hx
    exact (isRect_iff.1 h).2 rowList hmem
  rw [h2, List.sum_replicate, smul_eq_mul, rect_length h] at h1
  omega

theorem cellCount_eq_zero (p : Cell → Bool) (b : Board) :
    cellCount p b = 0 ↔ ∀ r c cell, getCell b r c = some cell → p cell = false := by
  unfold cellCount
  rw [List.sum_eq_zero_iff]
  constructor
  · intro h r c cell hcell
    obtain ⟨rowList, hrow, hc⟩ := getCell_eq_some.1 hcell
    have h0 : rowList.countP p = 0 :=
      h (rowList.countP p) (List.mem_map_of_mem _ (List.getElem?_mem hrow))
    have := List.countP_eq_zero.1 h0 cell (List.getElem?_mem hc)
    simpa using this
  · intro h x hx
    rw [List.mem_map] at hx
    obtain ⟨rowList, hmem, rfl⟩ := hx
    rw [List.countP_eq_zero]
    intro cell hcell
    obtain ⟨r, hrow⟩ := List.getElem?_of_mem hmem
    obtain ⟨c, hc⟩ := List.getElem?_of_mem hcell
    have hg : getCell b r c = some cell := getCell_eq_some.2 ⟨rowList, hrow, hc⟩
    simp [h r c cell hg]

theorem stripStates_setCellWith (f : Cell → Cell)
    (hf : ∀ cell, stripCell (f cell) = stripCell cell) (b : Board) (r c : Nat) :
    stripStates (setCellWith f b r c) = stripStates b := by
  cases hg : getCell b r c with
  | none => rw [setCellWith_none f hg]
  | some cell =>
    obtain ⟨rowList, hrow, hcell⟩ := getCell_eq_some.1 hg
    rw [setCellWith_eq f hrow hcell]
    unfold stripStates
    rw [List.map_set, List.map_set, hf]
    have hinner : (rowList.map stripCell).set c (stripCell cell) = rowList.map stripCell := by
      apply set_self_aux
      rw [List.getElem?_map, hcell]
      rfl
    rw [hinner]
    apply set_self_aux
    rw [List.getElem?_map, hrow]
    rfl

theorem stripStates_setState (b : Board) (r c : Nat) (s : CellState) :
    stripStates (setState b r c s) = stripStates b := by
  unfold setState
  exact stripStates_setCellWith (fun cell => { cell with state := s }) (fun _ => rfl) b r c

theorem rowLengths_eq_of_stripStates {a b : Board} (h : stripStates a = stripStates b) :
    rowLengths a = rowLengths b := by
  have key : ∀ x : Board, rowLengths x = (stripStates x).map List.length := by
    intro x
    unfold rowLengths stripStates
    rw [List.map_map]
    apply List.map_congr_left
    intro rowList _
    simp [Function.comp]
  rw [key, key, h]

/-! ### `mapIdxFrom` / `mapIdx2` lemmas -/

theorem getElem?_mapIdxFrom (f : Nat → α → β) :
    ∀ (i : Nat) (l : List α) (j : Nat),
      (mapIdxFrom f i l)[j]? = (l[j]?).map (f (i + j))
  | _, [], j => by simp [mapIdxFrom]
  | i, a :: as, 0 => by simp [mapIdxFrom]
  | i, a :: as, j + 1 => by
    simp only [mapIdxFrom, List.getElem?_cons_succ]
    rw [getElem?_mapIdxFrom f (i + 1) as j]
    have heq : i + 1 + j = i + (j + 1) := by omega
    rw [heq]

theorem length_mapIdxFrom (f : Nat → α → β) :
    ∀ (i : Nat) (l : List α), (mapIdxFrom f i l).length = l.length
  | _, [] => rfl
  | i, a :: as => by
    simp only [mapIdxFrom, List.length_cons]
    rw [length_mapIdxFrom f (i + 1) as]

theorem countP_mapIdxFrom (p : β → Bool) (q : α → Bool) (f : Nat → α → β)
    (hpf : ∀ i a, p (f i a) = q a) :
    ∀ (i : Nat) (l : List α), (mapIdxFrom f i l).countP p = l.countP q
  | _, [] => rfl
  | i, a :: as => by
    simp only [mapIdxFrom, List.countP_cons]
    rw [countP_mapIdxFrom p q f hpf (i + 1) as, hpf]

theorem getCell_mapIdx2 (f : Nat → Nat → Cell → Cell) (b : Board) (r c : Nat) :
    getCell (mapIdx2 f b) r c = (getCell b r c).map (f r c) := by
  unfold mapIdx2 getCell
  rw [getElem?_mapIdxFrom]
  cases hrow : b[r]? with
  | none => rfl
  | some rowList =>
    simp only [Nat.zero_add, Option.map_some', Option.some_bind]
    rw [getElem?_mapIdxFrom]
    simp [Nat.zero_add]

theorem rowLengths_mapIdx2 (f : Nat → Nat → Cell → Cell) (b : Board) :
    rowLengths (mapIdx2 f b) = rowLengths b := by
  unfold mapIdx2
  suffices h : ∀ (i : Nat) (x : Board),
      rowLengths (mapIdxFrom (fun r rowList =>
        mapIdxFrom (fun c cell => f r c cell) 0 rowList) i x) = rowLengths x by
    exact h 0 b
  intro i x
  induction x generalizing i with
  | nil => rfl
  | cons rowList rest ih =>
    unfold rowLengths at ih ⊢
    simp only [mapIdxFrom, List.map_cons, List.cons.injEq]
    exact ⟨length_mapIdxFrom _ _ _, ih (i + 1)⟩

theorem cellCount_mapIdx2 (p : Cell → Bool) (f : Nat → Nat → Cell → Cell)
    (hpf : ∀ r c cell, p (f r c cell) = p cell) (b : Board) :
    cellCount p (mapIdx2 f b) = cellCount p b := by
  unfold mapIdx2
  suffices h : ∀ (i : Nat) (x : Board),
      cellCount p (mapIdxFrom (fun r rowList =>
        mapIdxFrom (fun c cell => f r c cell) 0 rowList) i x) = cellCount p x by
    exact h 0 b
  intro i x
  induction x generalizing i with
  | nil => rfl
  | cons rowList rest ih =>
    unfold cellCount at ih ⊢
    simp only [mapIdxFrom, List.map_cons, List.sum_cons]
    rw [countP_mapIdxFrom p p _ (fun i a => hpf _ i a), ih (i + 1)]

/-! ### `placeMines` lemmas -/

theorem countMines_setMine {b : Board} {r c : Nat} {cell : Cell}
    (h : getCell b r c = some cell) (hm : cell.isMine = false) :
    countMines (setMine b r c) = countMines b + 1 := by
  unfold countMines setMine
  have hc := cellCount_setCellWith (·.isMine) (fun cell => { cell with isMine := true }) b r c h
  simp only [hm, if_false] at hc
  simpa using hc

theorem placeMinesLoop_countMines (fr fc : Nat) :
    ∀ (picks : List (Nat × Nat)) (b : Board) (remaining : Nat) (out : Board),
      placeMinesLoop fr fc b remaining picks = some out →
      countMines out = countMines b + remaining := by
  intro picks
  induction picks with
  | nil =>
    intro b remaining out h
    cases remaining with
    | zero =>
      simp only [placeMinesLoop, Option.some.injEq] at h
      subst h
      rfl
    | succ n => simp [placeMinesLoop] at h
  | cons p ps ih =>
    intro b remaining out h
    obtain ⟨r, c⟩ := p
    cases remaining with
    | zero =>
      simp only [placeMinesLoop, Option.some.injEq] at h
      subst h
      rfl
    | succ n =>
      simp only [placeMinesLoop] at h
      cases hcell : getCell b r c with
      | none =>
        rw [hcell] at h
        simp at h
      | some cell =>
        rw [hcell] at h
        dsimp only at h
        by_cases hcond : (!cell.isMine && !isSafeZone fr fc r c) = true
        · rw [if_pos hcond] at h
          have hmine : cell.isMine = false := by
            rcases Bool.and_eq_true_iff.1 hcond with ⟨h1, -⟩
            simpa using h1
          have hrec := ih (setMine b r c) n out h
          rw [countMines_setMine hcell hmine] at hrec
          omega
        · rw [if_neg hcond] at h
          exact ih b (n + 1) out h

theorem placeMinesLoop_rowLengths (fr fc : Nat) :
    ∀ (picks : List (Nat × Nat)) (b : Board) (remaining : Nat) (out : Board),
      placeMinesLoop fr fc b remaining picks = some out →
      rowLengths out = rowLengths b := by
  intro picks
  induction picks with
  | nil =>
    intro b remaining out h
    cases remaining with
    | zero =>
      simp only [placeMinesLoop, Option.some.injEq] at h
      subst h
      rfl
    | succ n => simp [placeMinesLoop] at h
  | cons p ps ih =>
    intro b remaining out h
    obtain ⟨r, c⟩ := p
    cases remaining with
    | zero =>
      simp only [placeMinesLoop, Option.some.injEq] at h
      subst h
      rfl
    | succ n =>
      simp only [placeMinesLoop] at h
      cases hcell : getCell b r c with
      | none =>
        rw [hcell] at h
        simp at h
      | some cell =>
        rw [hcell] at h
        dsimp only at h
        by_cases hcond : (!cell.isMine && !isSafeZone fr fc r c) = true
        · rw [if_pos hcond] at h
          have hrec := ih (setMine b r c) n out h
          rw [hrec]
          exact rowLengths_setCellWith _ b r c
        · rw [if_neg hcond] at h
          exact ih b (n + 1) out h

theorem computeNumbers_fn (b : Board) (r c : Nat) :
    getCell (computeNumbers b) r c =
      (getCell b r c).map fun cell =>
        if cell.isMine then cell
        else { cell with neighborMines := countMinedNeighbors b (nRows b) (nCols b) r c } := by
  unfold computeNumbers
  exact getCell_mapIdx2 _ b r c

theorem rowLengths_computeNumbers (b : Board) :
    rowLengths (computeNumbers b) = rowLengths b := by
  unfold computeNumbers
  exact rowLengths_mapIdx2 _ b

theorem countMines_computeNumbers (b : Board) :
    countMines (computeNumbers b) = countMines b := by
  unfold countMines computeNumbers
  apply cellCount_mapIdx2
  intro r c cell
  by_cases h : cell.isMine <;> simp [h]

theorem isMine_computeNumbers (b : Board) (i j : Nat) :
    (getCell (computeNumbers b) i j).map (·.isMine) = (getCell b i j).map (·.isMine) := by
  rw [computeNumbers_fn, Option.map_map]
  apply congrFun
  apply congrArg
  funext cell
  by_cases h : cell.isMine <;> simp [Function.comp, h]

theorem countMinedNeighbors_congr {a b : Board}
    (h : ∀ i j, (getCell a i j).map (·.isMine) = (getCell b i j).map (·.isMine))
    (rows cols r c : Nat) :
    countMinedNeighbors a rows cols r c = countMinedNeighbors b rows cols r c := by
  unfold countMinedNeighbors
  congr 1
  apply List.filter_congr
  intro d _
  simp only [h]

/-! ### `checkWin` lemmas -/

theorem count_grid_eq (b : Board) (cols : Nat)
    (hcols : ∀ rowList ∈ b, rowList.length = cols) (p : Cell → Bool) :
    ((List.range b.length).map fun r =>
      (List.range cols).countP fun c => ((getCell b r c).map p).getD false).sum
      = cellCount p b := by
  have hmap : ((List.range b.length).map fun r =>
      (List.range cols).countP fun c => ((getCell b r c).map p).getD false)
      = (List.range b.length).map fun r =>
        ((b[r]?).map fun rowList => rowList.countP p).getD 0 := by
    apply List.map_congr_left
    intro r hr
    rw [List.mem_range] at hr
    obtain ⟨rowList, hrow⟩ : ∃ rowList, b[r]? = some rowList := by
      rw [List.getElem?_eq_getElem hr]
      exact ⟨_, rfl⟩
    rw [hrow]
    simp only [Option.map_some', Option.getD_some]
    have hgc : ∀ c, getCell b r c = rowList[c]? := by
      intro c
      unfold getCell
      rw [hrow]
      rfl
    simp only [hgc]
    have hlen : rowList.length = cols := hcols _ (List.getElem?_mem hrow)
    rw [← hlen]
    exact countP_range_get _ p
  rw [hmap, sum_map_range_get]
  rfl

theorem checkWin_eq_count (b : Board) (d : Difficulty) {rows cols : Nat}
    (hb : isRect b rows cols = true) (h0 : 0 < rows) :
    checkWin b d =
      ((countRevealed b : Int) == (rows : Int) * (cols : Int) - (d.mines : Int)) := by
  unfold checkWin
  dsimp only
  have h1 : nRows b = rows := rect_nRows hb
  have h2 : nCols b = cols := rect_nCols hb h0
  rw [h1, h2]
  have h3 := count_grid_eq b cols (isRect_iff.1 hb).2
      (fun cell => cell.state == CellState.REVEALED)
  rw [rect_length hb] at h3
  rw [h3]
  rfl

/-! ### Claim C2 -/

/-- C2 counterexample: the source `createEmptyBoard` has no failure path:
at `rows = 0` it returns the empty board value, where the claim (and the
spec-modelled `createEmptyBoardSpec`) demand an `InvalidDimensions`
failure. -/
theorem claim_C2_counterexample :
    createEmptyBoard 0 5 = [] ∧
    createEmptyBoardSpec 0 5 = .error .InvalidDimensions := by
  constructor <;> rfl

/-- C2 (amended): `createEmptyBoard` performs no dimension validation and
never fails; it returns a `max rows 0 × max cols 0` board (so an empty
board, not an error, when `rows ≤ 0` or `cols ≤ 0`), and every cell of it
is `HIDDEN` with `isMine = false` and `neighborMines = 0` at its own
coordinates. -/
theorem claim_C2 (rows cols : Int) (i j : Nat) :
    (createEmptyBoard rows cols).length = rows.toNat ∧
    (∀ rowList ∈ createEmptyBoard rows cols, rowList.length = cols.toNat) ∧
    getCell (createEmptyBoard rows cols) i j =
      (if i < rows.toNat ∧ j < cols.toNat then
        some { row := i, col := j, isMine := false, state := .HIDDEN, neighborMines := 0 }
      else none) := by
  refine ⟨by simp [createEmptyBoard], ?_, getCell_createEmptyBoard rows cols i j⟩
  intro rowList h
  unfold createEmptyBoard at h
  rw [List.mem_map] at h
  obtain ⟨r, -, rfl⟩ := h
  simp

/-- C2 witness: the amended claim evaluated on a 2×3 board and on the
degenerate `rows = 0` call. -/
theorem claim_C2_witness :
    (createEmptyBoard 2 3).length = 2 ∧
    getCell (createEmptyBoard 2 3) 1 2 =
      some { row := 1, col := 2, isMine := false, state := .HIDDEN, neighborMines := 0 } ∧
    getCell (createEmptyBoard 0 5) 0 0 = none := by
  refine ⟨(claim_C2 2 3 1 2).1, ?_, ?_⟩
  · have h := (claim_C2 2 3 1 2).2.2
    simpa using h
  · have h := (claim_C2 0 5 0 0).2.2
    simpa using h

/-! ### Claim C3 -/

/-- C3 counterexample: on an input board that already contains a mine
(at `(3,3)` of a 4×4 board), `placeMines` with `m = 1` succeeds — the
claimed precondition holds, 1 mine fits in the 12 cells outside the 3×3
safe zone around `(0,0)` — yet the result has 2 mines, not `m = 1`:
the claim is false for arbitrary input boards. -/
theorem claim_C3_counterexample :
    1 ≤ ((rowMajor 4 4).filter fun p => !isSafeZone 0 0 p.1 p.2).length ∧
    (placeMines (setMine (createEmptyBoard 4 4) 3 3) 1 0 0 [(3, 0)]).map countMines =
      some 2 ∧ (2 : Nat) ≠ 1 := by
  refine ⟨by decide, by decide, by decide⟩

/-- C3 (amended): for every input board with **no** mines, whenever
`placeMines board m r c` succeeds under the injected random pick
sequence (success is exactly the claim's "m fits outside the safe zone"
precondition), the returned board has exactly `m` mines. -/
theorem claim_C3 (b : Board) (m fr fc : Nat) (picks : List (Nat × Nat)) (out : Board)
    (h0 : countMines b = 0) (h : placeMines b m fr fc picks = some out) :
    countMines out = m := by
  unfold placeMines at h
  cases hloop : placeMinesLoop fr fc b m picks with
  | none =>
    rw [hloop] at h
    cases h
  | some b1 =>
    rw [hloop] at h
    simp only [Option.map_some', Option.some.injEq] at h
    subst h
    rw [countMines_computeNumbers]
    have := placeMinesLoop_countMines fr fc picks b m b1 hloop
    omega

/-- C3 witness: placing 2 mines on an empty 4×4 board via picks
`(3,3)`, `(3,0)` yields exactly 2 mines. -/
theorem claim_C3_witness :
    countMines ((placeMines (createEmptyBoard 4 4) 2 0 0 [(3, 3), (3, 0)]).getD []) = 2 :=
  claim_C3 (createEmptyBoard 4 4) 2 0 0 [(3, 3), (3, 0)]
    ((placeMines (createEmptyBoard 4 4) 2 0 0 [(3, 3), (3, 0)]).getD [])
    (by decide) (by decide)

/-! ### Claim C7 -/

/-- C7: in every board returned by `placeMines`, each non-mine cell's
`neighborMines` equals the exact number of its in-bounds mined
8-neighbours. -/
theorem claim_C7 (b : Board) (rows cols m fr fc : Nat) (picks : List (Nat × Nat))
    (out : Board) (hb : isRect b rows cols = true) (h0 : 0 < rows)
    (h : placeMines b m fr fc picks = some out) :
    ∀ r c cell, getCell out r c = some cell → cell.isMine = false →
      cell.neighborMines = countMinedNeighbors out rows cols r c := by
  unfold placeMines at h
  cases hloop : placeMinesLoop fr fc b m picks with
  | none =>
    rw [hloop] at h
    cases h
  | some b1 =>
    rw [hloop] at h
    simp only [Option.map_some', Option.some.injEq] at h
    subst h
    have hshape : rowLengths b1 = rowLengths b :=
      placeMinesLoop_rowLengths fr fc picks b m b1 hloop
    have hrect1 : isRect b1 rows cols = true := by
      rw [isRect_eq_of_rowLengths hshape]
      exact hb
    have hrows1 : nRows b1 = rows := rect_nRows hrect1
    have hcols1 : nCols b1 = cols := rect_nCols hrect1 h0
    intro r c cell hcell hmine
    rw [computeNumbers_fn] at hcell
    cases hc1 : getCell b1 r c with
    | none =>
      rw [hc1] at hcell
      cases hcell
    | some cell1 =>
      rw [hc1] at hcell
      simp only [Option.map_some', Option.some.injEq] at hcell
      have hcnt : countMinedNeighbors (computeNumbers b1) rows cols r c =
          countMinedNeighbors b1 rows cols r c :=
        countMinedNeighbors_congr (isMine_computeNumbers b1) rows cols r c
      by_cases hm1 : cell1.isMine
      · rw [if_pos hm1] at hcell
        subst hcell
        rw [hm1] at hmine
        cases hmine
      · rw [if_neg hm1] at hcell
        subst hcell
        rw [hcnt, hrows1, hcols1]

/-- C7 witness: a mine placed at `(3,3)` of a 4×4 board gives cell
`(3,2)` a `neighborMines` count of 1, matching the recount on the
returned board. -/
theorem claim_C7_witness :
    ({ row := 3, col := 2, isMine := false, state := CellState.HIDDEN,
       neighborMines := 1 } : Cell).neighborMines =
      countMinedNeighbors
        ((placeMines (createEmptyBoard 4 4) 1 0 0 [(3, 3)]).getD []) 4 4 3 2 :=
  claim_C7 (createEmptyBoard 4 4) 4 4 1 0 0 [(3, 3)]
    ((placeMines (createEmptyBoard 4 4) 1 0 0 [(3, 3)]).getD [])
    (by decide) (by decide) (by decide) 3 2 _ (by decide) (by decide)

/-! ### Claim C5 -/

/-- C5: `checkWin` is true exactly when the number of `REVEALED` cells
equals `rows*cols - mineCount` (as integers), and flagging any
non-revealed cell — in particular placing or removing flags on mines —
does not change the result. -/
theorem claim_C5 (b : Board) (d : Difficulty) (rows cols : Nat)
    (hb : isRect b rows cols = true) (h0 : 0 < rows) :
    (checkWin b d = true ↔
      (countRevealed b : Int) = (rows : Int) * (cols : Int) - (d.mines : Int)) ∧
    (∀ r c cell, getCell b r c = some cell → cell.state ≠ .REVEALED →
      checkWin (setState b r c .FLAGGED) d = checkWin b d) := by
  constructor
  · rw [checkWin_eq_count b d hb h0]
    exact beq_iff_eq
  · intro r c cell hcell hne
    have hshape : rowLengths (setState b r c .FLAGGED) = rowLengths b :=
      rowLengths_setCellWith _ b r c
    have hrect2 : isRect (setState b r c .FLAGGED) rows cols = true := by
      rw [isRect_eq_of_rowLengths hshape]
      exact hb
    have hcount : countRevealed (setState b r c .FLAGGED) = countRevealed b := by
      unfold countRevealed setState
      have hc := cellCount_setCellWith (fun cell => cell.state == CellState.REVEALED)
        (fun cell => { cell with state := CellState.FLAGGED }) b r c hcell
      have hpc : (cell.state == CellState.REVEALED) = false := by
        simpa using hne
      simp only [hpc, if_false] at hc
      simpa using hc
    rw [checkWin_eq_count (setState b r c .FLAGGED) d hrect2 h0,
      checkWin_eq_count b d hb h0, hcount]

/-- C5 witness: on a concrete 2×2 board with one mine and three revealed
safe cells, `checkWin` is true, the count identity holds, and flagging
the hidden mine cell leaves the result unchanged. -/
theorem claim_C5_witness :
    (checkWin
        [[{ row := 0, col := 0, isMine := true,  state := .HIDDEN,   neighborMines := 0 },
          { row := 0, col := 1, isMine := false, state := .REVEALED, neighborMines := 1 }],
         [{ row := 1, col := 0, isMine := false, state := .REVEALED, neighborMines := 1 },
          { row := 1, col := 1, isMine := false, state := .REVEALED, neighborMines := 1 }]]
        { name := "test", rows := 2, cols := 2, mines := 1 } = true ↔
      ((countRevealed
        [[{ row := 0, col := 0, isMine := true,  state := .HIDDEN,   neighborMines := 0 },
          { row := 0, col := 1, isMine := false, state := .REVEALED, neighborMines := 1 }],
         [{ row := 1, col := 0, isMine := false, state := .REVEALED, neighborMines := 1 },
          { row := 1, col := 1, isMine := false, state := .REVEALED, neighborMines := 1 }]] : Int)
        = (2 : Int) * (2 : Int) - (1 : Int))) := by
  have h := claim_C5
    [[{ row := 0, col := 0, isMine := true,  state := .HIDDEN,   neighborMines := 0 },
      { row := 0, col := 1, isMine := false, state := .REVEALED, neighborMines := 1 }],
     [{ row := 1, col := 0, isMine := false, state := .REVEALED, neighborMines := 1 },
      { row := 1, col := 1, isMine := false, state := .REVEALED, neighborMines := 1 }]]
    { name := "test", rows := 2, cols := 2, mines := 1 } 2 2 (by decide) (by decide)
  exact h.1

/-! ### Hint engine lemmas -/

theorem mem_rowMajor {rows cols : Nat} {p : Nat × Nat} :
    p ∈ rowMajor rows cols ↔ p.1 < rows ∧ p.2 < cols := by
  obtain ⟨r, c⟩ := p
  unfold rowMajor
  constructor
  · intro h
    rw [List.mem_flatMap] at h
    obtain ⟨a, ha, hmem⟩ := h
    rw [List.mem_map] at hmem
    obtain ⟨c2, hc2, heq⟩ := hmem
    cases heq
    exact ⟨List.mem_range.1 ha, List.mem_range.1 hc2⟩
  · intro h
    rw [List.mem_flatMap]
    exact ⟨r, List.mem_range.2 h.1, List.mem_map.2 ⟨c, List.mem_range.2 h.2, rfl⟩⟩

theorem firstHiddenNbr_spec {b : Board} {rows cols r c nr nc : Nat}
    (h : firstHiddenNbr b rows cols r c = some (nr, nc)) :
    nr < rows ∧ nc < cols ∧ isNbr r c nr nc = true ∧
      ∃ ncell, getCell b nr nc = some ncell ∧ ncell.state = .HIDDEN := by
  unfold firstHiddenNbr at h
  obtain ⟨d, hd, hfd⟩ := List.exists_of_findSome?_eq_some h
  dsimp only at hfd
  by_cases hbnd : 0 ≤ (r : Int) + d.1 ∧ (r : Int) + d.1 < (rows : Int) ∧
      0 ≤ (c : Int) + d.2 ∧ (c : Int) + d.2 < (cols : Int)
  · rw [if_pos hbnd] at hfd
    cases hget : getCell b ((r : Int) + d.1).toNat ((c : Int) + d.2).toNat with
    | none =>
      rw [hget] at hfd
      cases hfd
    | some ncell =>
      rw [hget] at hfd
      dsimp only at hfd
      by_cases hhid : ncell.state = CellState.HIDDEN
      · rw [if_pos hhid] at hfd
        injection hfd with hfd
        injection hfd with h1 h2
        subst h1
        subst h2
        obtain ⟨hb1, hb2, hb3, hb4⟩ := hbnd
        refine ⟨by omega, by omega, ?_, ncell, hget, hhid⟩
        unfold isNbr
        rw [List.any_eq_true]
        refine ⟨d, hd, ?_⟩
        rw [Bool.and_eq_true]
        constructor <;> rw [beq_iff_eq] <;> omega
      · rw [if_neg hhid] at hfd
        cases hfd
  · rw [if_neg hbnd] at hfd
    cases hfd

theorem firstHiddenNbr_isSome {b : Board} {rows cols r c : Nat}
    (h : 0 < countNbrState b rows cols r c .HIDDEN) :
    ∃ p, firstHiddenNbr b rows cols r c = some p := by
  cases hfo : firstHiddenNbr b rows cols r c with
  | some p => exact ⟨p, rfl⟩
  | none =>
    exfalso
    unfold countNbrState at h
    rw [List.countP_pos_iff] at h
    obtain ⟨cell, hmem, hhid⟩ := h
    unfold nbrCells at hmem
    rw [List.mem_filterMap] at hmem
    obtain ⟨d, hd, hfd⟩ := hmem
    dsimp only at hfd
    unfold firstHiddenNbr at hfo
    rw [List.findSome?_eq_none_iff] at hfo
    have hnone := hfo d hd
    dsimp only at hnone
    by_cases hbnd : 0 ≤ (r : Int) + d.1 ∧ (r : Int) + d.1 < (rows : Int) ∧
        0 ≤ (c : Int) + d.2 ∧ (c : Int) + d.2 < (cols : Int)
    · rw [if_pos hbnd] at hfd hnone
      rw [hfd] at hnone
      dsimp only at hnone
      rw [if_pos (by simpa using hhid)] at hnone
      cases hnone
    · rw [if_neg hbnd] at hfd
      cases hfd

theorem tier1At_some {b : Board} {rows cols r c : Nat} {hint : AiHint}
    (h : tier1At b rows cols r c = some hint) :
    hint.confidence = 1 ∧
    ∃ cell, getCell b r c = some cell ∧ cell.state = .REVEALED ∧
      0 < cell.neighborMines ∧
      countNbrState b rows cols r c .FLAGGED = cell.neighborMines ∧
      countNbrState b rows cols r c .FLAGGED < countNbrState b rows cols r c .HIDDEN ∧
      firstHiddenNbr b rows cols r c = some (hint.row, hint.col) := by
  unfold tier1At at h
  cases hcell : getCell b r c with
  | none =>
    rw [hcell] at h
    cases h
  | some cell =>
    rw [hcell] at h
    dsimp only at h
    by_cases h1 : cell.state = CellState.REVEALED ∧ 0 < cell.neighborMines
    · rw [if_pos h1] at h
      by_cases h2 : countNbrState b rows cols r c .FLAGGED = cell.neighborMines ∧
          countNbrState b rows cols r c .FLAGGED < countNbrState b rows cols r c .HIDDEN
      · rw [if_pos h2] at h
        cases hfh : firstHiddenNbr b rows cols r c with
        | none =>
          rw [hfh] at h
          cases h
        | some p =>
          obtain ⟨nr, nc⟩ := p
          rw [hfh] at h
          dsimp only at h
          injection h with h
          subst h
          exact ⟨rfl, cell, rfl, h1.1, h1.2, h2.1, h2.2, rfl⟩
      · rw [if_neg h2] at h
        cases h
    · rw [if_neg h1] at h
      cases h

theorem tier1At_ne_none {b : Board} {rows cols r c : Nat} {cell : Cell}
    (hcell : getCell b r c = some cell) (h1 : cell.state = .REVEALED)
    (h2 : 0 < cell.neighborMines)
    (h3 : countNbrState b rows cols r c .FLAGGED = cell.neighborMines)
    (h4 : countNbrState b rows cols r c .FLAGGED <
      countNbrState b rows cols r c .HIDDEN) :
    tier1At b rows cols r c ≠ none := by
  unfold tier1At
  rw [hcell]
  dsimp only
  rw [if_pos ⟨h1, h2⟩, if_pos ⟨h3, h4⟩]
  have hpos : 0 < countNbrState b rows cols r c .HIDDEN := by omega
  obtain ⟨p, hp⟩ := firstHiddenNbr_isSome hpos
  obtain ⟨nr, nc⟩ := p
  rw [hp]
  simp

theorem tier1_some {b : Board} {rows cols : Nat} {hint : AiHint}
    (h : tier1 b rows cols = some hint) :
    hint.confidence = 1 ∧
    ∃ sr sc0 scell, getCell b sr sc0 = some scell ∧ scell.state = .REVEALED ∧
      0 < scell.neighborMines ∧
      countNbrState b rows cols sr sc0 .FLAGGED = scell.neighborMines ∧
      countNbrState b rows cols sr sc0 .FLAGGED <
        countNbrState b rows cols sr sc0 .HIDDEN ∧
      firstHiddenNbr b rows cols sr sc0 = some (hint.row, hint.col) := by
  unfold tier1 at h
  obtain ⟨p, hp, hat⟩ := List.exists_of_findSome?_eq_some h
  obtain ⟨hconf, cell, hcell, hrev, hnm, hf1, hf2, hfh⟩ := tier1At_some hat
  exact ⟨hconf, p.1, p.2, cell, hcell, hrev, hnm, hf1, hf2, hfh⟩

theorem tier1_ne_none {b : Board} {rows cols r c : Nat} {cell : Cell}
    (hr : r < rows) (hc : c < cols) (hcell : getCell b r c = some cell)
    (h1 : cell.state = .REVEALED) (h2 : 0 < cell.neighborMines)
    (h3 : countNbrState b rows cols r c .FLAGGED = cell.neighborMines)
    (h4 : countNbrState b rows cols r c .FLAGGED <
      countNbrState b rows cols r c .HIDDEN) :
    tier1 b rows cols ≠ none := by
  unfold tier1
  rw [Ne, List.findSome?_eq_none_iff]
  intro hall
  exact tier1At_ne_none hcell h1 h2 h3 h4 (hall (r, c) (mem_rowMajor.2 ⟨hr, hc⟩))

theorem tier2Step_some (b : Board) (rows cols : Nat) (sc : RiskCell) (p : Nat × Nat) :
    ∃ sc2, tier2Step b rows cols (some sc) p = some sc2 := by
  unfold tier2Step
  cases hg : getCell b p.1 p.2 with
  | none => exact ⟨sc, rfl⟩
  | some cell =>
    dsimp only
    by_cases hh : cell.state = CellState.HIDDEN
    · rw [if_pos hh]
      by_cases hlt : riskAt b rows cols p.1 p.2 < sc.risk
      · rw [if_pos hlt]
        exact ⟨_, rfl⟩
      · rw [if_neg hlt]
        exact ⟨sc, rfl⟩
    · rw [if_neg hh]
      exact ⟨sc, rfl⟩

theorem tier2_foldl_spec (b : Board) (rows cols : Nat) :
    ∀ (l : List (Nat × Nat)) (acc : Option RiskCell),
      (∀ sc, acc = some sc → ∃ cell, getCell b sc.row sc.col = some cell ∧
        cell.state = .HIDDEN ∧ sc.risk = riskAt b rows cols sc.row sc.col) →
      ∀ sc, l.foldl (tier2Step b rows cols) acc = some sc →
        ∃ cell, getCell b sc.row sc.col = some cell ∧ cell.state = .HIDDEN ∧
          sc.risk = riskAt b rows cols sc.row sc.col := by
  intro l
  induction l with
  | nil =>
    intro acc hacc sc h
    rw [List.foldl_nil] at h
    exact hacc sc h
  | cons p ps ih =>
    intro acc hacc sc h
    rw [List.foldl_cons] at h
    refine ih (tier2Step b rows cols acc p) ?_ sc h
    intro sc2 hsc2
    unfold tier2Step at hsc2
    cases hg : getCell b p.1 p.2 with
    | none =>
      rw [hg] at hsc2
      exact hacc sc2 hsc2
    | some cell =>
      rw [hg] at hsc2
      dsimp only at hsc2
      by_cases hh : cell.state = CellState.HIDDEN
      · rw [if_pos hh] at hsc2
        cases acc with
        | none =>
          dsimp only at hsc2
          injection hsc2 with hsc2
          subst hsc2
          exact ⟨cell, hg, hh, rfl⟩
        | some sc0 =>
          dsimp only at hsc2
          by_cases hlt : riskAt b rows cols p.1 p.2 < sc0.risk
          · rw [if_pos hlt] at hsc2
            injection hsc2 with hsc2
            subst hsc2
            exact ⟨cell, hg, hh, rfl⟩
          · rw [if_neg hlt] at hsc2
            injection hsc2 with hsc2
            subst hsc2
            exact hacc sc0 rfl
      · rw [if_neg hh] at hsc2
        exact hacc sc2 hsc2

theorem tier2_some_spec {b : Board} {rows cols : Nat} {sc : RiskCell}
    (h : tier2 b rows cols = some sc) :
    ∃ cell, getCell b sc.row sc.col = some cell ∧ cell.state = .HIDDEN ∧
      sc.risk = riskAt b rows cols sc.row sc.col := by
  unfold tier2 at h
  exact tier2_foldl_spec b rows cols (rowMajor rows cols) none
    (by intro sc2 h2; cases h2) sc h

theorem tier2_foldl_none_of (b : Board) (rows cols : Nat) :
    ∀ (l : List (Nat × Nat)),
      (∀ p ∈ l, ∀ cell, getCell b p.1 p.2 = some cell → cell.state ≠ .HIDDEN) →
      l.foldl (tier2Step b rows cols) none = none
  | [], _ => rfl
  | p :: ps, h => by
    rw [List.foldl_cons]
    have hstep : tier2Step b rows cols none p = none := by
      unfold tier2Step
      cases hg : getCell b p.1 p.2 with
      | none => rfl
      | some cell =>
        dsimp only
        rw [if_neg (h p (List.mem_cons_self p ps) cell hg)]
    rw [hstep]
    exact tier2_foldl_none_of b rows cols ps
      (fun q hq => h q (List.mem_cons_of_mem p hq))

theorem tier2_foldl_eq_none (b : Board) (rows cols : Nat) :
    ∀ (l : List (Nat × Nat)) (acc : Option RiskCell),
      l.foldl (tier2Step b rows cols) acc = none →
      acc = none ∧ ∀ p ∈ l, ∀ cell, getCell b p.1 p.2 = some cell →
        cell.state ≠ .HIDDEN
  | [], acc, h => ⟨h, by simp⟩
  | p :: ps, acc, h => by
    rw [List.foldl_cons] at h
    obtain ⟨hstep, hrest⟩ :=
      tier2_foldl_eq_none b rows cols ps (tier2Step b rows cols acc p) h
    have hacc : acc = none := by
      cases acc with
      | none => rfl
      | some sc =>
        obtain ⟨sc2, hsc2⟩ := tier2Step_some b rows cols sc p
        rw [hsc2] at hstep
        cases hstep
    subst hacc
    refine ⟨rfl, ?_⟩
    intro q hq cell hcell
    rcases List.mem_cons.1 hq with rfl | hq2
    · intro hh
      unfold tier2Step at hstep
      rw [hcell] at hstep
      dsimp only at hstep
      rw [if_pos hh] at hstep
      cases hstep
    · exact hrest q hq2 cell hcell

theorem riskAt_nonneg (b : Board) (rows cols r c : Nat) :
    0 ≤ riskAt b rows cols r c := by
  unfold riskAt
  dsimp only
  split
  · apply div_nonneg
    · apply div_nonneg
      · exact Nat.cast_nonneg _
      · exact Nat.cast_nonneg _
    · norm_num
  · norm_num

theorem jsMax_eq_max (a b : Rat) : jsMax a b = max a b := by
  rw [max_def]
  rfl

theorem findSafeMove_cases (b : Board) {rows cols : Nat}
    (hb : isRect b rows cols = true) (h0 : 0 < rows) :
    findSafeMove b =
      match tier1 b rows cols with
      | some hint => some hint
      | none =>
        match tier2 b rows cols with
        | some sc =>
          some { row := sc.row, col := sc.col,
                 confidence := jsMax ((1 : Rat) / 10) (1 - sc.risk),
                 reasoning := tier2Reason sc.row sc.col }
        | none => none := by
  unfold findSafeMove
  dsimp only
  rw [rect_nRows hb, rect_nCols hb h0]

/-! ### Claim C8 -/

/-- C8: `findSafeMove` returns `null` exactly when the board has no
`HIDDEN` cell, and every returned hint has confidence in `[0.1, 1.0]`. -/
theorem claim_C8 (b : Board) (rows cols : Nat) (hb : isRect b rows cols = true)
    (h0 : 0 < rows) :
    (findSafeMove b = none ↔ countHidden b = 0) ∧
    (∀ hint, findSafeMove b = some hint →
      (1 : Rat) / 10 ≤ hint.confidence ∧ hint.confidence ≤ 1) := by
  have hfc := findSafeMove_cases b hb h0
  constructor
  · constructor
    · intro hnone
      rw [hfc] at hnone
      cases h1 : tier1 b rows cols with
      | some hint =>
        rw [h1] at hnone
        simp at hnone
      | none =>
        rw [h1] at hnone
        cases h2 : tier2 b rows cols with
        | some sc =>
          rw [h2] at hnone
          simp at hnone
        | none =>
          have hall := (tier2_foldl_eq_none b rows cols (rowMajor rows cols) none h2).2
          unfold countHidden
          rw [cellCount_eq_zero]
          intro r c cell hcell
          have hbd := getCell_some_bounds hb hcell
          have := hall (r, c) (mem_rowMajor.2 hbd) cell hcell
          simpa using this
    · intro hzero
      rw [hfc]
      unfold countHidden at hzero
      have hnohid := (cellCount_eq_zero _ b).1 hzero
      cases h1 : tier1 b rows cols with
      | some hint =>
        exfalso
        obtain ⟨-, sr, sc0, scell, -, -, -, -, -, hfh⟩ := tier1_some h1
        obtain ⟨-, -, -, ncell, hncell, hhid⟩ := firstHiddenNbr_spec hfh
        have := hnohid _ _ _ hncell
        rw [hhid] at this
        simp at this
      | none =>
        cases h2 : tier2 b rows cols with
        | some sc =>
          exfalso
          obtain ⟨cell, hcell, hhid, -⟩ := tier2_some_spec h2
          have := hnohid _ _ _ hcell
          rw [hhid] at this
          simp at this
        | none =>
          rfl
  · intro hint hsome
    rw [hfc] at hsome
    cases h1 : tier1 b rows cols with
    | some hint1 =>
      rw [h1] at hsome
      dsimp only at hsome
      injection hsome with hsome
      subst hsome
      have hconf := (tier1_some h1).1
      rw [hconf]
      norm_num
    | none =>
      rw [h1] at hsome
      cases h2 : tier2 b rows cols with
      | none =>
        rw [h2] at hsome
        simp at hsome
      | some sc =>
        rw [h2] at hsome
        dsimp only at hsome
        injection hsome with hsome
        subst hsome
        have hrisk : 0 ≤ sc.risk := by
          obtain ⟨cell, -, -, hre⟩ := tier2_some_spec h2
          rw [hre]
          exact riskAt_nonneg b rows cols sc.row sc.col
        show (1 : Rat) / 10 ≤ jsMax ((1 : Rat) / 10) (1 - sc.risk) ∧
          jsMax ((1 : Rat) / 10) (1 - sc.risk) ≤ 1
        rw [jsMax_eq_max]
        constructor
        · exact le_max_left _ _
        · apply max_le
          · norm_num
          · linarith

/-- C8 witness: on the 1×1 board with one hidden cell, `findSafeMove`
returns a hint whose confidence lies inside `[0.1, 1.0]`. -/
theorem claim_C8_witness :
    (1 : Rat) / 10 ≤
      (AiHint.mk 0 0 (tier2Reason 0 0)
        (jsMax ((1 : Rat) / 10) (1 - (1 : Rat) / 10))).confidence ∧
    (AiHint.mk 0 0 (tier2Reason 0 0)
        (jsMax ((1 : Rat) / 10) (1 - (1 : Rat) / 10))).confidence ≤ 1 :=
  (claim_C8 oneHiddenBoard 1 1 (by decide) (by decide)).2
    (AiHint.mk 0 0 (tier2Reason 0 0) (jsMax ((1 : Rat) / 10) (1 - (1 : Rat) / 10)))
    rfl

/-! ### Claim C10 -/

/-- C10: every hint `findSafeMove` returns names an in-bounds coordinate
whose cell is `HIDDEN` in the input board. -/
theorem claim_C10 (b : Board) (rows cols : Nat) (hb : isRect b rows cols = true)
    (h0 : 0 < rows) (hint : AiHint) (h : findSafeMove b = some hint) :
    hint.row < rows ∧ hint.col < cols ∧
    ∃ cell, getCell b hint.row hint.col = some cell ∧ cell.state = .HIDDEN := by
  rw [findSafeMove_cases b hb h0] at h
  cases h1 : tier1 b rows cols with
  | some hint1 =>
    rw [h1] at h
    dsimp only at h
    injection h with h
    subst h
    obtain ⟨-, sr, sc0, scell, -, -, -, -, -, hfh⟩ := tier1_some h1
    obtain ⟨hnr, hnc, -, ncell, hncell, hhid⟩ := firstHiddenNbr_spec hfh
    exact ⟨hnr, hnc, ncell, hncell, hhid⟩
  | none =>
    rw [h1] at h
    cases h2 : tier2 b rows cols with
    | none =>
      rw [h2] at h
      simp at h
    | some sc =>
      rw [h2] at h
      dsimp only at h
      injection h with h
      subst h
      obtain ⟨cell, hcell, hhid, -⟩ := tier2_some_spec h2
      have hb2 := getCell_some_bounds hb hcell
      exact ⟨hb2.1, hb2.2, cell, hcell, hhid⟩

/-- C10 witness: on the 1×1 one-hidden-cell board the returned hint is
in bounds and targets the hidden cell. -/
theorem claim_C10_witness :
    (AiHint.mk 0 0 (tier2Reason 0 0)
      (jsMax ((1 : Rat) / 10) (1 - (1 : Rat) / 10))).row < 1 ∧
    (AiHint.mk 0 0 (tier2Reason 0 0)
      (jsMax ((1 : Rat) / 10) (1 - (1 : Rat) / 10))).col < 1 ∧
    ∃ cell, getCell oneHiddenBoard
        (AiHint.mk 0 0 (tier2Reason 0 0)
          (jsMax ((1 : Rat) / 10) (1 - (1 : Rat) / 10))).row
        (AiHint.mk 0 0 (tier2Reason 0 0)
          (jsMax ((1 : Rat) / 10) (1 - (1 : Rat) / 10))).col = some cell ∧
      cell.state = .HIDDEN :=
  claim_C10 oneHiddenBoard 1 1 (by decide) (by decide)
    (AiHint.mk 0 0 (tier2Reason 0 0) (jsMax ((1 : Rat) / 10) (1 - (1 : Rat) / 10)))
    rfl

/-! ### Claim C1 -/

/-- C1 counterexample: on `cexBoardC1` the claim's premise holds at the
revealed cell `(0,0)` — `neighborMines = 2 > 0`, two flagged neighbours,
one hidden neighbour — yet `findSafeMove` returns confidence `3/4`, not
`1.0`: the source additionally requires `hiddenCount > flaggedCount`
before the Tier-1 rule fires, so the claim as stated is false. -/
theorem claim_C1_counterexample :
    getCell cexBoardC1 0 0 =
      some { row := 0, col := 0, isMine := false, state := .REVEALED,
             neighborMines := 2 } ∧
    countNbrState cexBoardC1 2 2 0 0 .FLAGGED = 2 ∧
    0 < countNbrState cexBoardC1 2 2 0 0 .HIDDEN ∧
    (findSafeMove cexBoardC1).map AiHint.confidence = some ((3 : Rat) / 4) ∧
    ((3 : Rat) / 4) ≠ 1 := by
  refine ⟨by decide, by decide, by decide, ?_, by norm_num⟩
  have h1 : findSafeMove cexBoardC1 =
      some { row := 1, col := 1, reasoning := tier2Reason 1 1,
             confidence := jsMax ((1 : Rat) / 10)
               (1 - riskAt cexBoardC1 2 2 1 1) } := rfl
  have h2 : riskAt cexBoardC1 2 2 1 1 =
      ((2 : Nat) : Rat) / ((1 : Nat) : Rat) / 8 := rfl
  have h3 : riskAt cexBoardC1 2 2 1 1 = (1 : Rat) / 4 := by
    rw [h2]
    norm_num
  rw [h1, h3, Option.map_some']
  have h4 : jsMax ((1 : Rat) / 10) (1 - (1 : Rat) / 4) = (3 : Rat) / 4 := by
    rw [jsMax_eq_max, max_eq_right (by norm_num)]
    norm_num
  simp only [h4]

/-- C1 (amended): if some revealed cell has `neighborMines > 0` equal to
its flagged-neighbour count and **strictly more** hidden than flagged
neighbours (the source's extra `hiddenCount > flaggedCount` guard), then
`findSafeMove` returns a hint with confidence exactly `1.0` whose target
is a hidden 8-neighbour of such a cell. -/
theorem claim_C1 (b : Board) (rows cols : Nat) (hb : isRect b rows cols = true)
    (h0 : 0 < rows) (r c : Nat) (cell : Cell) (hcell : getCell b r c = some cell)
    (hrev : cell.state = .REVEALED) (hnm : 0 < cell.neighborMines)
    (hflag : countNbrState b rows cols r c .FLAGGED = cell.neighborMines)
    (hmore : countNbrState b rows cols r c .FLAGGED <
      countNbrState b rows cols r c .HIDDEN) :
    ∃ hint, findSafeMove b = some hint ∧ hint.confidence = 1 ∧
      ∃ sr sc0 scell, getCell b sr sc0 = some scell ∧ scell.state = .REVEALED ∧
        0 < scell.neighborMines ∧
        countNbrState b rows cols sr sc0 .FLAGGED = scell.neighborMines ∧
        countNbrState b rows cols sr sc0 .FLAGGED <
          countNbrState b rows cols sr sc0 .HIDDEN ∧
        isNbr sr sc0 hint.row hint.col = true ∧
        ∃ tcell, getCell b hint.row hint.col = some tcell ∧
          tcell.state = .HIDDEN := by
  have hbounds := getCell_some_bounds hb hcell
  have hne := tier1_ne_none hbounds.1 hbounds.2 hcell hrev hnm hflag hmore
  cases h1 : tier1 b rows cols with
  | none => exact absurd h1 hne
  | some hint =>
    refine ⟨hint, ?_, ?_⟩
    · rw [findSafeMove_cases b hb h0, h1]
    · obtain ⟨hconf, sr, sc0, scell, hscell, hsrev, hsnm, hsf, hsm, hfh⟩ :=
        tier1_some h1
      obtain ⟨-, -, hnbr, tcell, htcell, hthid⟩ := firstHiddenNbr_spec hfh
      exact ⟨hconf, sr, sc0, scell, hscell, hsrev, hsnm, hsf, hsm, hnbr,
        tcell, htcell, hthid⟩

/-- C1 witness: on `tier1Board` — a revealed `(0,0)` with one flagged
mined neighbour and two hidden neighbours — the amended claim applies. -/
theorem claim_C1_witness :
    ∃ hint, findSafeMove tier1Board = some hint ∧ hint.confidence = 1 ∧
      ∃ sr sc0 scell, getCell tier1Board sr sc0 = some scell ∧
        scell.state = .REVEALED ∧ 0 < scell.neighborMines ∧
        countNbrState tier1Board 2 2 sr sc0 .FLAGGED = scell.neighborMines ∧
        countNbrState tier1Board 2 2 sr sc0 .FLAGGED <
          countNbrState tier1Board 2 2 sr sc0 .HIDDEN ∧
        isNbr sr sc0 hint.row hint.col = true ∧
        ∃ tcell, getCell tier1Board hint.row hint.col = some tcell ∧
          tcell.state = .HIDDEN :=
  claim_C1 tier1Board 2 2 (by decide) (by decide) 0 0
    { row := 0, col := 0, isMine := false, state := .REVEALED, neighborMines := 1 }
    (by decide) (by decide) (by decide) (by decide) (by decide)


/-! ### Flood-fill lemmas -/

theorem enqueueNbrs_length_le (b : Board) (r c : Nat) :
    (enqueueNbrs b r c).length ≤ 8 := by
  unfold enqueueNbrs
  exact le_trans (List.length_filterMap_le _ _) (by decide)

theorem enqueueNbrs_mem {b : Board} {r c : Nat} {p : Nat × Nat}
    (h : p ∈ enqueueNbrs b r c) : p.1 < nRows b ∧ p.2 < nCols b := by
  unfold enqueueNbrs at h
  rw [List.mem_filterMap] at h
  obtain ⟨d, hd, hfd⟩ := h
  dsimp only at hfd
  by_cases hbnd : 0 ≤ (r : Int) + d.1 ∧ (r : Int) + d.1 < (nRows b : Int) ∧
      0 ≤ (c : Int) + d.2 ∧ (c : Int) + d.2 < (nCols b : Int)
  · rw [if_pos hbnd] at hfd
    cases hget : getCell b ((r : Int) + d.1).toNat ((c : Int) + d.2).toNat with
    | none =>
      rw [hget] at hfd
      cases hfd
    | some ncell =>
      rw [hget] at hfd
      dsimp only at hfd
      by_cases hh : ncell.state = CellState.HIDDEN ∨ ncell.state = CellState.QUESTION
      · rw [if_pos hh] at hfd
        injection hfd with hfd
        subst hfd
        obtain ⟨h1, h2, h3, h4⟩ := hbnd
        constructor <;> simp <;> omega
      · rw [if_neg hh] at hfd
        cases hfd
  · rw [if_neg hbnd] at hfd
    cases hfd

theorem enqueueNbrs_state {b : Board} {r c : Nat} {p : Nat × Nat}
    (h : p ∈ enqueueNbrs b r c) :
    ∃ pcell, getCell b p.1 p.2 = some pcell ∧
      (pcell.state = CellState.HIDDEN ∨ pcell.state = CellState.QUESTION) := by
  unfold enqueueNbrs at h
  rw [List.mem_filterMap] at h
  obtain ⟨d, hd, hfd⟩ := h
  dsimp only at hfd
  by_cases hbnd : 0 ≤ (r : Int) + d.1 ∧ (r : Int) + d.1 < (nRows b : Int) ∧
      0 ≤ (c : Int) + d.2 ∧ (c : Int) + d.2 < (nCols b : Int)
  · rw [if_pos hbnd] at hfd
    cases hget : getCell b ((r : Int) + d.1).toNat ((c : Int) + d.2).toNat with
    | none =>
      rw [hget] at hfd
      cases hfd
    | some ncell =>
      rw [hget] at hfd
      dsimp only at hfd
      by_cases hh : ncell.state = CellState.HIDDEN ∨ ncell.state = CellState.QUESTION
      · rw [if_pos hh] at hfd
        injection hfd with hfd
        subst hfd
        exact ⟨ncell, hget, hh⟩
      · rw [if_neg hh] at hfd
        cases hfd
  · rw [if_neg hbnd] at hfd
    cases hfd

theorem nodup_bounded_length {l : List (Nat × Nat)} {rows cols : Nat}
    (hn : l.Nodup) (hb : ∀ p ∈ l, p.1 < rows ∧ p.2 < cols) :
    l.length ≤ rows * cols := by
  have hsub : l.toFinset ⊆ (Finset.range rows) ×ˢ (Finset.range cols) := by
    intro p hp
    rw [List.mem_toFinset] at hp
    rw [Finset.mem_product, Finset.mem_range, Finset.mem_range]
    exact hb p hp
  have hcard := Finset.card_le_card hsub
  rw [Finset.card_product, Finset.card_range, Finset.card_range] at hcard
  rw [← List.toFinset_card_of_nodup hn]
  exact hcard

theorem activeCount_setRevealed {b : Board} {r c : Nat} {cell : Cell}
    (h : getCell b r c = some cell)
    (hs : ¬(cell.state = CellState.REVEALED ∨ cell.state = CellState.FLAGGED)) :
    activeCount (setState b r c .REVEALED) + 1 = activeCount b := by
  unfold activeCount setState
  have hc := cellCount_setCellWith
    (fun cell => !(cell.state == CellState.REVEALED || cell.state == CellState.FLAGGED))
    (fun cell => { cell with state := CellState.REVEALED }) b r c h
  have hptrue : (!(cell.state == CellState.REVEALED || cell.state == CellState.FLAGGED))
      = true := by
    cases hstate : cell.state <;> simp_all
  dsimp only at hc
  rw [hptrue] at hc
  rw [if_pos rfl] at hc
  rw [if_neg (by decide)] at hc
  omega

theorem activeCount_pos {b : Board} {r c : Nat} {cell : Cell}
    (h : getCell b r c = some cell)
    (hs : ¬(cell.state = CellState.REVEALED ∨ cell.state = CellState.FLAGGED)) :
    0 < activeCount b := by
  unfold activeCount
  apply cellCount_pos _ h
  cases hstate : cell.state <;> simp_all

theorem rowLengths_setState (b : Board) (r c : Nat) (s : CellState) :
    rowLengths (setState b r c s) = rowLengths b :=
  rowLengths_setCellWith _ b r c

theorem bfs1Count_run (rows cols : Nat) :
    ∀ (fuel : Nat) (b : Board) (q : List (Nat × Nat)) (enq : Nat),
      isRect b rows cols = true →
      (∀ p ∈ q, p.1 < rows ∧ p.2 < cols) →
      9 * activeCount b + q.length < fuel →
      ∃ out enq2, bfs1Count fuel b q enq = some (out, enq2) ∧
        enq2 ≤ enq + 8 * activeCount b ∧
        bfs1 fuel b q = some out := by
  intro fuel
  induction fuel with
  | zero =>
    intro b q enq _ _ hm
    omega
  | succ fuel ih =>
    intro b q enq hb hq hm
    cases q with
    | nil => exact ⟨b, enq, rfl, by omega, rfl⟩
    | cons p q2 =>
      obtain ⟨r, c⟩ := p
      have hrc : r < rows ∧ c < cols := hq (r, c) (List.mem_cons_self _ _)
      obtain ⟨cell, hcell⟩ := getCell_isSome_of_bounds hb hrc.1 hrc.2
      have hq2 : ∀ p ∈ q2, p.1 < rows ∧ p.2 < cols :=
        fun p hp => hq p (List.mem_cons_of_mem _ hp)
      simp only [bfs1Count, bfs1, hcell]
      by_cases hsk : cell.state = CellState.REVEALED ∨ cell.state = CellState.FLAGGED
      · rw [if_pos hsk, if_pos hsk]
        apply ih b q2 enq hb hq2
        simp only [List.length_cons] at hm
        omega
      · rw [if_neg hsk, if_neg hsk]
        have hact := activeCount_setRevealed hcell hsk
        have hshape : rowLengths (setState b r c .REVEALED) = rowLengths b :=
          rowLengths_setState b r c _
        have hrect2 : isRect (setState b r c .REVEALED) rows cols = true := by
          rw [isRect_eq_of_rowLengths hshape]
          exact hb
        by_cases hz : cell.neighborMines = 0
        · rw [if_pos hz, if_pos hz]
          have hqn : ∀ p ∈ q2 ++ enqueueNbrs (setState b r c .REVEALED) r c,
              p.1 < rows ∧ p.2 < cols := by
            intro p hp
            rcases List.mem_append.1 hp with hp2 | hp3
            · exact hq2 p hp2
            · have := enqueueNbrs_mem hp3
              rwa [nRows_eq_of_rowLengths hshape, nCols_eq_of_rowLengths hshape,
                rect_nRows hb, rect_nCols hb (by omega)] at this
          have hlen := enqueueNbrs_length_le (setState b r c .REVEALED) r c
          obtain ⟨out, enq2, h1, h2, h3⟩ :=
            ih (setState b r c .REVEALED) (q2 ++ enqueueNbrs (setState b r c .REVEALED) r c)
              (enq + (enqueueNbrs (setState b r c .REVEALED) r c).length) hrect2 hqn
              (by
                simp only [List.length_append, List.length_cons] at hm ⊢
                omega)
          exact ⟨out, enq2, h1, by omega, h3⟩
        · rw [if_neg hz, if_neg hz]
          obtain ⟨out, enq2, h1, h2, h3⟩ :=
            ih (setState b r c .REVEALED) q2 enq hrect2 hq2
              (by
                simp only [List.length_cons] at hm
                omega)
          exact ⟨out, enq2, h1, by omega, h3⟩


theorem bfs2Count_run (rows cols : Nat) :
    ∀ (fuel : Nat) (b : Board) (q vis : List (Nat × Nat)) (enq : Nat),
      isRect b rows cols = true →
      (∀ p ∈ q, p.1 < rows ∧ p.2 < cols) →
      (∀ p ∈ vis, p.1 < rows ∧ p.2 < cols) →
      vis.Nodup →
      9 * (rows * cols - vis.length) + q.length < fuel →
      ∃ out enq2, bfs2Count fuel b q vis enq = some (out, enq2) ∧
        enq2 ≤ enq + 8 * (rows * cols - vis.length) ∧
        bfs2 fuel b q vis = some out := by
  intro fuel
  induction fuel with
  | zero =>
    intro b q vis enq _ _ _ _ hm
    omega
  | succ fuel ih =>
    intro b q vis enq hb hq hvis hnd hm
    cases q with
    | nil => exact ⟨b, enq, rfl, by omega, rfl⟩
    | cons p q2 =>
      obtain ⟨r, c⟩ := p
      have hrc : r < rows ∧ c < cols := hq (r, c) (List.mem_cons_self _ _)
      have hq2 : ∀ p ∈ q2, p.1 < rows ∧ p.2 < cols :=
        fun p hp => hq p (List.mem_cons_of_mem _ hp)
      simp only [bfs2Count, bfs2]
      by_cases hv : (r, c) ∈ vis
      · rw [if_pos hv, if_pos hv]
        apply ih b q2 vis enq hb hq2 hvis hnd
        simp only [List.length_cons] at hm
        omega
      · rw [if_neg hv, if_neg hv]
        obtain ⟨target, hcell⟩ := getCell_isSome_of_bounds hb hrc.1 hrc.2
        rw [hcell]
        dsimp only
        have hvis2 : ∀ p ∈ (r, c) :: vis, p.1 < rows ∧ p.2 < cols := by
          intro p hp
          rcases List.mem_cons.1 hp with rfl | hp2
          · exact hrc
          · exact hvis p hp2
        have hnd2 : ((r, c) :: vis).Nodup := List.nodup_cons.2 ⟨hv, hnd⟩
        have hvlen : ((r, c) :: vis).length ≤ rows * cols :=
          nodup_bounded_length hnd2 hvis2
        simp only [List.length_cons] at hvlen
        by_cases hflag : target.state = CellState.FLAGGED
        · rw [if_pos hflag, if_pos hflag]
          obtain ⟨out, enq2, h1, h2, h3⟩ := ih b q2 ((r, c) :: vis) enq hb hq2 hvis2 hnd2
            (by
              simp only [List.length_cons] at hm ⊢
              omega)
          refine ⟨out, enq2, h1, ?_, h3⟩
          simp only [List.length_cons] at h2
          omega
        · rw [if_neg hflag, if_neg hflag]
          have hshape : rowLengths (setState b r c .REVEALED) = rowLengths b :=
            rowLengths_setState b r c _
          have hrect2 : isRect (setState b r c .REVEALED) rows cols = true := by
            rw [isRect_eq_of_rowLengths hshape]
            exact hb
          by_cases hz : target.neighborMines = 0 ∧ target.isMine = false
          · rw [if_pos hz, if_pos hz]
            have hqn : ∀ p ∈ q2 ++ enqueueNbrs (setState b r c .REVEALED) r c,
                p.1 < rows ∧ p.2 < cols := by
              intro p hp
              rcases List.mem_append.1 hp with hp2 | hp3
              · exact hq2 p hp2
              · have := enqueueNbrs_mem hp3
                rwa [nRows_eq_of_rowLengths hshape, nCols_eq_of_rowLengths hshape,
                  rect_nRows hb, rect_nCols hb (by omega)] at this
            have hlen := enqueueNbrs_length_le (setState b r c .REVEALED) r c
            obtain ⟨out, enq2, h1, h2, h3⟩ :=
              ih (setState b r c .REVEALED)
                (q2 ++ enqueueNbrs (setState b r c .REVEALED) r c) ((r, c) :: vis)
                (enq + (enqueueNbrs (setState b r c .REVEALED) r c).length) hrect2 hqn
                hvis2 hnd2
                (by
                  simp only [List.length_append, List.length_cons] at hm ⊢
                  omega)
            refine ⟨out, enq2, h1, ?_, h3⟩
            simp only [List.length_cons] at h2
            omega
          · rw [if_neg hz, if_neg hz]
            obtain ⟨out, enq2, h1, h2, h3⟩ :=
              ih (setState b r c .REVEALED) q2 ((r, c) :: vis) enq hrect2 hq2 hvis2 hnd2
                (by
                  simp only [List.length_cons] at hm ⊢
                  omega)
            refine ⟨out, enq2, h1, ?_, h3⟩
            simp only [List.length_cons] at h2
            omega

theorem revealsOnly_refl (b : Board) : RevealsOnly b b := fun _ _ _ h => Or.inl h

theorem revealsOnly_setState {b : Board} {r c : Nat} {target : Cell}
    (hget : getCell b r c = some target) (hflag : target.state ≠ CellState.FLAGGED) :
    RevealsOnly b (setState b r c .REVEALED) := by
  intro i j cell h
  unfold setState
  rw [getCell_setCellWith]
  by_cases hij : r = i ∧ c = j
  · obtain ⟨rfl, rfl⟩ := hij
    rw [if_pos ⟨rfl, rfl⟩, h]
    right
    have hcell : cell = target := by
      rw [h] at hget
      exact Option.some_inj.1 hget
    subst hcell
    exact ⟨hflag, rfl⟩
  · rw [if_neg hij]
    exact Or.inl h

theorem revealsOnly_trans {a b c : Board} (h1 : RevealsOnly a b)
    (h2 : RevealsOnly b c) : RevealsOnly a c := by
  intro i j cell h
  rcases h1 i j cell h with hb | ⟨hnf, hb⟩
  · rcases h2 i j cell hb with hc | ⟨hnf2, hc⟩
    · exact Or.inl hc
    · exact Or.inr ⟨hnf2, hc⟩
  · rcases h2 i j _ hb with hc | ⟨-, hc⟩
    · exact Or.inr ⟨hnf, hc⟩
    · exact Or.inr ⟨hnf, hc⟩

theorem bfs2_revealsOnly :
    ∀ (fuel : Nat) (b : Board) (q vis : List (Nat × Nat)) (out : Board),
      bfs2 fuel b q vis = some out → RevealsOnly b out := by
  intro fuel
  induction fuel with
  | zero =>
    intro b q vis out h
    cases h
  | succ fuel ih =>
    intro b q vis out h
    cases q with
    | nil =>
      simp only [bfs2, Option.some.injEq] at h
      subst h
      exact revealsOnly_refl _
    | cons p q2 =>
      obtain ⟨r, c⟩ := p
      simp only [bfs2] at h
      by_cases hv : (r, c) ∈ vis
      · rw [if_pos hv] at h
        exact ih b q2 vis out h
      · rw [if_neg hv] at h
        cases hcell : getCell b r c with
        | none =>
          rw [hcell] at h
          cases h
        | some target =>
          rw [hcell] at h
          dsimp only at h
          by_cases hflag : target.state = CellState.FLAGGED
          · rw [if_pos hflag] at h
            exact ih b q2 _ out h
          · rw [if_neg hflag] at h
            have hstep := revealsOnly_setState hcell hflag
            by_cases hz : target.neighborMines = 0 ∧ target.isMine = false
            · rw [if_pos hz] at h
              exact revealsOnly_trans hstep (ih _ _ _ out h)
            · rw [if_neg hz] at h
              exact revealsOnly_trans hstep (ih _ _ _ out h)

theorem bfs2_stripStates :
    ∀ (fuel : Nat) (b : Board) (q vis : List (Nat × Nat)) (out : Board),
      bfs2 fuel b q vis = some out → stripStates out = stripStates b := by
  intro fuel
  induction fuel with
  | zero =>
    intro b q vis out h
    cases h
  | succ fuel ih =>
    intro b q vis out h
    cases q with
    | nil =>
      simp only [bfs2, Option.some.injEq] at h
      subst h
      rfl
    | cons p q2 =>
      obtain ⟨r, c⟩ := p
      simp only [bfs2] at h
      by_cases hv : (r, c) ∈ vis
      · rw [if_pos hv] at h
        exact ih b q2 vis out h
      · rw [if_neg hv] at h
        cases hcell : getCell b r c with
        | none =>
          rw [hcell] at h
          cases h
        | some target =>
          rw [hcell] at h
          dsimp only at h
          by_cases hflag : target.state = CellState.FLAGGED
          · rw [if_pos hflag] at h
            exact ih b q2 _ out h
          · rw [if_neg hflag] at h
            have hset := stripStates_setState b r c .REVEALED
            by_cases hz : target.neighborMines = 0 ∧ target.isMine = false
            · rw [if_pos hz] at h
              rw [ih _ _ _ out h, hset]
            · rw [if_neg hz] at h
              rw [ih _ _ _ out h, hset]


/-! ### Claim C4 -/

/-- C4 counterexample: revealing `(0,0)` of the all-zero 2×2 board
pushes 7 coordinates per BFS pass (14 over the whole call), exceeding
the claimed `rows*cols = 4` bound: the loops re-enqueue cells that are
already queued but not yet dequeued. -/
theorem claim_C4_counterexample :
    revealEnqueues (createEmptyBoard 2 2) 0 0 = some (7, 7) ∧ ¬(7 ≤ 2 * 2) ∧
    ¬(7 + 7 ≤ 2 * 2) := by
  refine ⟨by decide, by decide, by decide⟩

/-- C4 (amended): for every rectangular board and in-bounds non-mine
target cell in state `HIDDEN` or `QUESTION`, both flood-fill loops of
`revealCell` terminate (fuel `9*rows*cols + 2` suffices, so the whole
call returns a value), and each loop pushes at most `1 + 8*rows*cols`
coordinates onto its worklist (not `rows*cols` as claimed). -/
theorem claim_C4 (b : Board) (rows cols row col : Nat) (cell : Cell)
    (hb : isRect b rows cols = true) (h0 : 0 < rows)
    (hcell : getCell b row col = some cell)
    (hstate : cell.state = CellState.HIDDEN ∨ cell.state = CellState.QUESTION)
    (hmine : cell.isMine = false) :
    ∃ e1 e2, revealEnqueues b row col = some (e1, e2) ∧
      e1 ≤ 1 + 8 * (rows * cols) ∧ e2 ≤ 1 + 8 * (rows * cols) ∧
      ∃ out, revealCell b row col = some (out, false) := by
  have hbounds := getCell_some_bounds hb hcell
  have hq : ∀ p ∈ [(row, col)], p.1 < rows ∧ p.2 < cols := by
    intro p hp
    rw [List.mem_singleton] at hp
    subst hp
    exact hbounds
  have hfuel : revealFuel b = 9 * (rows * cols) + 2 := by
    unfold revealFuel
    rw [rect_nRows hb, rect_nCols hb h0]
  have hA : activeCount b ≤ rows * cols := cellCount_le hb _
  obtain ⟨out1, e1, h1c, h1b, h1⟩ :=
    bfs1Count_run rows cols (revealFuel b) b [(row, col)] 1 hb hq
      (by
        rw [hfuel]
        simp only [List.length_singleton]
        omega)
  obtain ⟨out2, e2, h2c, h2b, h2⟩ :=
    bfs2Count_run rows cols (revealFuel b) b [(row, col)] [] 1 hb hq
      (by simp) List.nodup_nil
      (by
        rw [hfuel]
        simp only [List.length_singleton, List.length_nil]
        omega)
  have hcond : ¬(cell.state ≠ CellState.HIDDEN ∧ cell.state ≠ CellState.QUESTION) := by
    rcases hstate with h | h <;> simp [h]
  refine ⟨e1, e2, ?_, by omega, ?_, out2, ?_⟩
  · unfold revealEnqueues
    rw [hcell]
    dsimp only
    rw [if_neg hcond, if_neg (by simp [hmine]), h1c, h2c]
  · simp only [List.length_nil, Nat.sub_zero] at h2b
    omega
  · unfold revealCell
    rw [hcell]
    dsimp only
    rw [if_neg hcond, if_neg (by simp [hmine]), h1]
    dsimp only
    rw [h2]
    rfl

/-- C4 witness: the amended claim applied to the 1×1 hidden board. -/
theorem claim_C4_witness :
    ∃ e1 e2, revealEnqueues oneHiddenBoard 0 0 = some (e1, e2) ∧
      e1 ≤ 1 + 8 * (1 * 1) ∧ e2 ≤ 1 + 8 * (1 * 1) ∧
      ∃ out, revealCell oneHiddenBoard 0 0 = some (out, false) :=
  claim_C4 oneHiddenBoard 1 1 0 0
    { row := 0, col := 0, isMine := false, state := .HIDDEN, neighborMines := 0 }
    (by decide) (by decide) (by decide) (Or.inl rfl) rfl

/-! ### Claim C6 -/

/-- C6: the flood-fill of `revealCell` leaves every cell that is
`FLAGGED` in the input board completely unchanged; the only change it
ever makes is turning a `HIDDEN` or `QUESTION` cell into exactly the
same cell in state `REVEALED`; and the shared neighbour-enqueue filter
only ever pushes cells whose current state is `HIDDEN` or `QUESTION` —
never a `FLAGGED` one, so the fill halts at flags. -/
theorem claim_C6 (b : Board) (row col : Nat) (startCell : Cell) (out : Board)
    (hm : Bool) (hstart : getCell b row col = some startCell)
    (h : revealCell b row col = some (out, hm)) :
    (∀ i j fcell, getCell b i j = some fcell → fcell.state = CellState.FLAGGED →
      getCell out i j = some fcell) ∧
    (∀ i j cell1 cell2, getCell b i j = some cell1 → getCell out i j = some cell2 →
      cell2 ≠ cell1 →
      (cell1.state = CellState.HIDDEN ∨ cell1.state = CellState.QUESTION) ∧
      cell2 = { cell1 with state := CellState.REVEALED }) ∧
    (∀ (b2 : Board) (r2 c2 : Nat) (p : Nat × Nat) (pcell : Cell),
      p ∈ enqueueNbrs b2 r2 c2 → getCell b2 p.1 p.2 = some pcell →
      pcell.state = CellState.HIDDEN ∨ pcell.state = CellState.QUESTION) := by
  have hro : RevealsOnly b out := by
    unfold revealCell at h
    rw [hstart] at h
    dsimp only at h
    by_cases hC : startCell.state ≠ CellState.HIDDEN ∧
        startCell.state ≠ CellState.QUESTION
    · rw [if_pos hC] at h
      injection h with h
      injection h with h1 h2
      subst h1
      exact revealsOnly_refl _
    · rw [if_neg hC] at h
      by_cases hM : startCell.isMine = true
      · rw [if_pos hM] at h
        injection h with h
        injection h with h1 h2
        subst h1
        apply revealsOnly_setState hstart
        intro hflag
        apply hC
        constructor <;> rw [hflag] <;> simp
      · rw [if_neg hM] at h
        cases hb1 : bfs1 (revealFuel b) b [(row, col)] with
        | none =>
          rw [hb1] at h
          cases h
        | some x =>
          rw [hb1] at h
          dsimp only at h
          cases hb2 : bfs2 (revealFuel b) b [(row, col)] [] with
          | none =>
            rw [hb2] at h
            cases h
          | some fb =>
            rw [hb2] at h
            simp only [Option.map_some'] at h
            injection h with h
            injection h with h1 h2
            subst h1
            exact bfs2_revealsOnly _ _ _ _ _ hb2
  refine ⟨?_, ?_, ?_⟩
  · intro i j fcell hf hflag
    rcases hro i j fcell hf with h1 | ⟨hnf, -⟩
    · exact h1
    · exact absurd hflag hnf
  · intro i j cell1 cell2 hc1 hc2 hne
    rcases hro i j cell1 hc1 with hsame | ⟨hnf, hrev⟩
    · exfalso
      rw [hc2] at hsame
      injection hsame with hsame
      exact hne hsame
    · rw [hc2] at hrev
      injection hrev with hrev
      obtain ⟨r0, c0, m0, s0, n0, hl0⟩ := cell1
      refine ⟨?_, hrev⟩
      cases s0 with
      | HIDDEN => exact Or.inl rfl
      | QUESTION => exact Or.inr rfl
      | FLAGGED => exact absurd rfl hnf
      | REVEALED => exact absurd hrev hne
  · intro b2 r2 c2 p pcell hmem hget
    obtain ⟨pcell2, hg2, hs2⟩ := enqueueNbrs_state hmem
    rw [hget] at hg2
    injection hg2 with hg2
    subst hg2
    exact hs2

/-- C6 witness: revealing the hidden non-mine cell `(1,1)` of
`tier1Board` leaves the flagged mined cell `(0,1)` untouched. -/
theorem claim_C6_witness :
    getCell ((revealCell tier1Board 1 1).getD ([], false)).1 0 1 =
      some { row := 0, col := 1, isMine := true, state := .FLAGGED,
             neighborMines := 0 } :=
  (claim_C6 tier1Board 1 1
    { row := 1, col := 1, isMine := false, state := .HIDDEN, neighborMines := 1 }
    ((revealCell tier1Board 1 1).getD ([], false)).1
    ((revealCell tier1Board 1 1).getD ([], false)).2
    (by decide) (by decide)).1 0 1
    { row := 0, col := 1, isMine := true, state := .FLAGGED, neighborMines := 0 }
    (by decide) rfl

/-! ### Claim C9 -/

/-- C9: `revealCell` preserves the board shape and every cell's `row`,
`col`, `isMine`, `neighborMines` (and `highlight`) fields; only the
`state` field can differ between input and output. -/
theorem claim_C9 (b : Board) (row col : Nat) (out : Board) (hm : Bool)
    (h : revealCell b row col = some (out, hm)) :
    stripStates out = stripStates b ∧ rowLengths out = rowLengths b := by
  have hstrip : stripStates out = stripStates b := by
    unfold revealCell at h
    cases hstart : getCell b row col with
    | none =>
      rw [hstart] at h
      cases h
    | some cell =>
      rw [hstart] at h
      dsimp only at h
      by_cases hC : cell.state ≠ CellState.HIDDEN ∧ cell.state ≠ CellState.QUESTION
      · rw [if_pos hC] at h
        injection h with h
        injection h with h1 h2
        subst h1
        rfl
      · rw [if_neg hC] at h
        by_cases hM : cell.isMine = true
        · rw [if_pos hM] at h
          injection h with h
          injection h with h1 h2
          subst h1
          exact stripStates_setState b row col .REVEALED
        · rw [if_neg hM] at h
          cases hb1 : bfs1 (revealFuel b) b [(row, col)] with
          | none =>
            rw [hb1] at h
            cases h
          | some x =>
            rw [hb1] at h
            dsimp only at h
            cases hb2 : bfs2 (revealFuel b) b [(row, col)] [] with
            | none =>
              rw [hb2] at h
              cases h
            | some fb =>
              rw [hb2] at h
              simp only [Option.map_some'] at h
              injection h with h
              injection h with h1 h2
              subst h1
              exact bfs2_stripStates _ _ _ _ _ hb2
  exact ⟨hstrip, rowLengths_eq_of_stripStates hstrip⟩

/-- C9 witness: revealing `(1,1)` of `cexBoardC1` keeps every non-state
field and the shape intact. -/
theorem claim_C9_witness :
    stripStates ((revealCell cexBoardC1 1 1).getD ([], false)).1 =
      stripStates cexBoardC1 ∧
    rowLengths ((revealCell cexBoardC1 1 1).getD ([], false)).1 =
      rowLengths cexBoardC1 :=
  claim_C9 cexBoardC1 1 1 ((revealCell cexBoardC1 1 1).getD ([], false)).1
    ((revealCell cexBoardC1 1 1).getD ([], false)).2 (by decide)

end Mines
